import Mathlib

/-!
# Verification of the crio storage kernel

A shallow embedding of the storage-kernel components of the `crio`
database (LRU-K replacer, B+-tree, slotted page, buffer pool manager,
extent allocator), with theorems settling the specification claims.

Machine integers of the source are modelled as `Nat`; the byte-level
header serialisation (little-endian `u32`/`u16` fields, which the source
reads and writes only through paired accessor functions) is modelled by
record fields holding the same abstract values.  `HashMap` state is
modelled as an association list; iteration order of a map is the list
order.  Fallible operations return `Except`/`Option`.
-/

set_option maxHeartbeats 1000000
set_option maxRecDepth 100000

namespace Crio

/-! ## LRU-K replacer (src/buffer/lru_k_replacer.rs)

`Timestamp` and `FrameId` are `u64`/`u32` in the source; arithmetic on
them never overflows in the source's use (a process-wide counter), so
they are modelled as `Nat`. -/

abbrev Timestamp := Nat

abbrev FrameId := Nat

/-- Access history for a single frame: `history` (most recent at the
back) plus the evictability flag.  Mirrors `FrameAccessInfo`. -/
structure FrameAccessInfo where
  history : List Timestamp
  is_evictable : Bool
  deriving DecidableEq

/-- `FrameAccessInfo::new`. -/
def FrameAccessInfo.new : FrameAccessInfo :=
  { history := [], is_evictable := false }

/-- `FrameAccessInfo::record_access`: push the timestamp at the back,
then pop from the front while more than `k` entries remain. -/
def FrameAccessInfo.record_access (info : FrameAccessInfo) (timestamp : Timestamp)
    (k : Nat) : FrameAccessInfo :=
  let h := info.history ++ [timestamp]
  { info with history := h.drop (h.length - k) }

/-- `FrameAccessInfo::k_distance`: `none` (+∞) when fewer than `k`
accesses are recorded, else `current_timestamp - history[len - k]`. -/
def FrameAccessInfo.k_distance (info : FrameAccessInfo) (current_timestamp : Timestamp)
    (k : Nat) : Option Timestamp :=
  if info.history.length < k then none
  else some (current_timestamp - info.history.getD (info.history.length - k) 0)

/-- `FrameAccessInfo::earliest_timestamp`: front of the history deque. -/
def FrameAccessInfo.earliest_timestamp (info : FrameAccessInfo) : Option Timestamp :=
  info.history.head?

/-- The LRU-K replacer state.  The source's `HashMap<FrameId,
FrameAccessInfo>` is modelled as an association list whose order is the
map's iteration order; the source's stored `num_evictable` counter is
kept in sync with the map and is modelled by the derived count
`LruKReplacer.num_evictable`. -/
structure LruKReplacer where
  k : Nat
  max_frames : Nat
  current_timestamp : Timestamp
  frame_info : List (FrameId × FrameAccessInfo)
  deriving DecidableEq

/-- `LruKReplacer::new`. -/
def LruKReplacer.new (k max_frames : Nat) : LruKReplacer :=
  { k := k, max_frames := max_frames, current_timestamp := 0, frame_info := [] }

/-- The `num_evictable` counter (kept in sync with the map by the
source; here the count itself). -/
def LruKReplacer.num_evictable (r : LruKReplacer) : Nat :=
  (r.frame_info.filter (fun p => p.2.is_evictable)).length

/-- The `should_replace` comparison inside `LruKReplacer::evict`,
comparing the candidate's `(k_dist, earliest)` against the current
victim's. -/
def shouldReplace (v_dist c_dist v_earliest c_earliest : Option Timestamp) : Bool :=
  match v_dist, c_dist with
  | none, some _ => false
  | some _, none => true
  | none, none =>
    match v_earliest, c_earliest with
    | some v_ts, some c_ts => decide (c_ts < v_ts)
    | none, some _ => true
    | _, _ => false
  | some vd, some cd => decide (vd < cd)

/-- The scan loop of `LruKReplacer::evict` over the map entries,
carrying `(victim, victim_k_dist, victim_earliest_ts)`. -/
def evictScan (current_ts k : Nat) :
    List (FrameId × FrameAccessInfo) →
    Option (FrameId × Option Timestamp × Option Timestamp) →
    Option (FrameId × Option Timestamp × Option Timestamp)
  | [], acc => acc
  | (fid, info) :: rest, acc =>
    if info.is_evictable = false then
      evictScan current_ts k rest acc
    else
      let k_dist := info.k_distance current_ts k
      let earliest_ts := info.earliest_timestamp
      match acc with
      | none => evictScan current_ts k rest (some (fid, k_dist, earliest_ts))
      | some (vfid, v_dist, v_earliest) =>
        if shouldReplace v_dist k_dist v_earliest earliest_ts then
          evictScan current_ts k rest (some (fid, k_dist, earliest_ts))
        else
          evictScan current_ts k rest (some (vfid, v_dist, v_earliest))

/-- `LruKReplacer::evict`: returns the chosen frame (if any) together
with the updated replacer (the victim's entry removed). -/
def LruKReplacer.evict (r : LruKReplacer) : Option FrameId × LruKReplacer :=
  if r.num_evictable = 0 then (none, r)
  else
    match evictScan r.current_timestamp r.k r.frame_info none with
    | none => (none, r)
    | some (fid, _, _) =>
      (some fid, { r with frame_info := r.frame_info.eraseP (fun p => p.1 == fid) })

/-- `LruKReplacer::record_access`: frames at or beyond `max_frames` are
ignored; otherwise the global timestamp is taken and incremented and the
frame's history extended (a missing frame gets a fresh entry, appended
in map order). -/
def LruKReplacer.record_access (r : LruKReplacer) (frame_id : FrameId) : LruKReplacer :=
  if r.max_frames ≤ frame_id then r
  else
    let timestamp := r.current_timestamp
    let fi :=
      match r.frame_info.lookup frame_id with
      | some _ =>
        r.frame_info.map (fun p =>
          if p.1 = frame_id then (p.1, p.2.record_access timestamp r.k) else p)
      | none =>
        r.frame_info ++ [(frame_id, FrameAccessInfo.new.record_access timestamp r.k)]
    { r with current_timestamp := timestamp + 1, frame_info := fi }

/-- `LruKReplacer::set_evictable`. -/
def LruKReplacer.set_evictable (r : LruKReplacer) (frame_id : FrameId)
    (evictable : Bool) : LruKReplacer :=
  if r.max_frames ≤ frame_id then r
  else
    match r.frame_info.lookup frame_id with
    | some _ =>
      { r with frame_info := r.frame_info.map (fun p =>
          if p.1 = frame_id then (p.1, { p.2 with is_evictable := evictable }) else p) }
    | none =>
      if evictable then
        { r with frame_info :=
            r.frame_info ++ [(frame_id, { history := [], is_evictable := true })] }
      else r

/-- `LruKReplacer::remove`. -/
def LruKReplacer.remove (r : LruKReplacer) (frame_id : FrameId) : LruKReplacer :=
  { r with frame_info := r.frame_info.eraseP (fun p => p.1 == frame_id) }

/-! ### Correctness of `evict` (claim C1)

The eviction preference is linearised through a priority in
`ℕ ⊕ₗ (WithTop ℕ)ᵒᵈ`: a finite k-distance `d` maps to `inl d`, a +∞
k-distance maps to `inr` of the (dualised) earliest timestamp, a frame
with no recorded access counting as earliest `⊤`.  The source's
`should_replace` is exactly the strict order on this priority. -/

/-- Eviction priority of a frame's access info. -/
def evictPrio (ts k : Nat) (info : FrameAccessInfo) : ℕ ⊕ₗ (WithTop ℕ)ᵒᵈ :=
  match info.k_distance ts k with
  | some d => toLex (Sum.inl d)
  | none =>
    match info.earliest_timestamp with
    | some e => toLex (Sum.inr (OrderDual.toDual (e : WithTop ℕ)))
    | none => toLex (Sum.inr (OrderDual.toDual (⊤ : WithTop ℕ)))

theorem shouldReplace_iff (ts k : Nat) (v c : FrameAccessInfo) :
    shouldReplace (v.k_distance ts k) (c.k_distance ts k)
        v.earliest_timestamp c.earliest_timestamp = true ↔
      evictPrio ts k v < evictPrio ts k c := by
  unfold shouldReplace evictPrio
  rcases hv : v.k_distance ts k with _ | dv <;>
    rcases hc : c.k_distance ts k with _ | dc
  · rcases hev : v.earliest_timestamp with _ | ev <;>
      rcases hec : c.earliest_timestamp with _ | ec
    · exact ⟨fun h => absurd h (by simp), fun h => absurd h (lt_irrefl _)⟩
    · exact ⟨fun _ => Sum.Lex.inr_lt_inr_iff.mpr
          (OrderDual.toDual_lt_toDual.mpr (WithTop.coe_lt_top ec)), fun _ => rfl⟩
    · refine ⟨fun h => absurd h (by simp), fun h => ?_⟩
      exact absurd (OrderDual.toDual_lt_toDual.mp (Sum.Lex.inr_lt_inr_iff.mp h)) not_top_lt
    · constructor
      · intro h
        exact Sum.Lex.inr_lt_inr_iff.mpr (OrderDual.toDual_lt_toDual.mpr
          (WithTop.coe_lt_coe.mpr (of_decide_eq_true h)))
      · intro h
        exact decide_eq_true (WithTop.coe_lt_coe.mp
          (OrderDual.toDual_lt_toDual.mp (Sum.Lex.inr_lt_inr_iff.mp h)))
  · rcases hev : v.earliest_timestamp with _ | ev <;>
      exact ⟨fun h => absurd h (by simp), fun h => absurd h Sum.Lex.not_inr_lt_inl⟩
  · rcases hec : c.earliest_timestamp with _ | ec <;>
      exact ⟨fun _ => Sum.Lex.inl_lt_inr _ _, fun _ => rfl⟩
  · constructor
    · intro h; exact Sum.Lex.inl_lt_inl_iff.mpr (of_decide_eq_true h)
    · intro h; exact decide_eq_true (Sum.Lex.inl_lt_inl_iff.mp h)

/-- Invariant carried by the `evict` scan: the accumulator is `none`
exactly when no scanned entry was evictable, else it records an
evictable scanned entry whose priority dominates every scanned
evictable entry. -/
def ScanInv (ts k : Nat) (scanned : List (FrameId × FrameAccessInfo))
    (acc : Option (FrameId × Option Timestamp × Option Timestamp)) : Prop :=
  match acc with
  | none => ∀ p ∈ scanned, p.2.is_evictable = false
  | some (fid, kd, ed) =>
    ∃ info, (fid, info) ∈ scanned ∧ info.is_evictable = true ∧
      kd = info.k_distance ts k ∧ ed = info.earliest_timestamp ∧
      ∀ q ∈ scanned, q.2.is_evictable = true →
        evictPrio ts k q.2 ≤ evictPrio ts k info

theorem evictScan_inv (ts k : Nat) (rest : List (FrameId × FrameAccessInfo)) :
    ∀ (scanned : List (FrameId × FrameAccessInfo))
      (acc : Option (FrameId × Option Timestamp × Option Timestamp)),
      ScanInv ts k scanned acc →
      ScanInv ts k (scanned ++ rest) (evictScan ts k rest acc) := by
  induction rest with
  | nil => intro scanned acc h; simpa [evictScan] using h
  | cons hd tl ih =>
    intro scanned acc h
    obtain ⟨fid, info⟩ := hd
    by_cases hev : info.is_evictable = false
    · have hstep : ScanInv ts k (scanned ++ [(fid, info)]) acc := by
        match acc with
        | none =>
          intro p hp
          rcases List.mem_append.mp hp with hp | hp
          · exact h p hp
          · rw [List.mem_singleton] at hp; subst hp; exact hev
        | some (vfid, kd, ed) =>
          obtain ⟨vinfo, hmem, hve, hkd, hed, hmax⟩ := h
          refine ⟨vinfo, List.mem_append_left _ hmem, hve, hkd, hed, ?_⟩
          intro q hq hqe
          rcases List.mem_append.mp hq with hq | hq
          · exact hmax q hq hqe
          · rw [List.mem_singleton] at hq; subst hq
            have hqe' : info.is_evictable = true := hqe
            rw [hev] at hqe'
            exact absurd hqe' (by simp)
      have := ih (scanned ++ [(fid, info)]) acc hstep
      simpa [evictScan, hev, List.append_assoc] using this
    · have hev' : info.is_evictable = true := by
        revert hev; cases info.is_evictable <;> simp
      match acc with
      | none =>
        have hnew : ScanInv ts k (scanned ++ [(fid, info)])
            (some (fid, info.k_distance ts k, info.earliest_timestamp)) := by
          refine ⟨info, List.mem_append_right _ (by simp), hev', rfl, rfl, ?_⟩
          intro q hq hqe
          rcases List.mem_append.mp hq with hq | hq
          · exfalso
            have := h q hq
            rw [this] at hqe; exact absurd hqe (by simp)
          · rw [List.mem_singleton] at hq; subst hq; exact le_rfl
        have := ih (scanned ++ [(fid, info)]) _ hnew
        simpa [evictScan, hev', List.append_assoc] using this
      | some (vfid, v_dist, v_earliest) =>
        obtain ⟨vinfo, hmem, hve, hkd, hed, hmax⟩ := h
        by_cases hrep :
            shouldReplace v_dist (info.k_distance ts k)
              v_earliest info.earliest_timestamp = true
        · have hlt : evictPrio ts k vinfo < evictPrio ts k info := by
            rw [hkd, hed] at hrep
            exact (shouldReplace_iff ts k vinfo info).mp hrep
          have hnew : ScanInv ts k (scanned ++ [(fid, info)])
              (some (fid, info.k_distance ts k, info.earliest_timestamp)) := by
            refine ⟨info, List.mem_append_right _ (by simp), hev', rfl, rfl, ?_⟩
            intro q hq hqe
            rcases List.mem_append.mp hq with hq | hq
            · exact le_of_lt (lt_of_le_of_lt (hmax q hq hqe) hlt)
            · rw [List.mem_singleton] at hq; subst hq; exact le_rfl
          have := ih (scanned ++ [(fid, info)]) _ hnew
          simpa [evictScan, hev', hrep, List.append_assoc] using this
        · have hle : evictPrio ts k info ≤ evictPrio ts k vinfo := by
            rw [hkd, hed] at hrep
            exact le_of_not_lt (fun hlt =>
              hrep ((shouldReplace_iff ts k vinfo info).mpr hlt))
          have hnew : ScanInv ts k (scanned ++ [(fid, info)])
              (some (vfid, v_dist, v_earliest)) := by
            refine ⟨vinfo, List.mem_append_left _ hmem, hve, hkd, hed, ?_⟩
            intro q hq hqe
            rcases List.mem_append.mp hq with hq | hq
            · exact hmax q hq hqe
            · rw [List.mem_singleton] at hq; subst hq; exact hle
          have := ih (scanned ++ [(fid, info)]) _ hnew
          simpa [evictScan, hev', hrep, List.append_assoc] using this

/-- The claim's comparison of a victim `b` against another evictable
frame `a`: `b` has the larger backward k-distance, +∞ (fewer than `k`
accesses) beating every finite distance, and among +∞ frames the
smaller earliest-access timestamp winning. -/
def EvictDominates (ts k : Nat) (b a : FrameAccessInfo) : Prop :=
  match b.k_distance ts k, a.k_distance ts k with
  | none, none => ∀ e e', b.earliest_timestamp = some e →
      a.earliest_timestamp = some e' → e ≤ e'
  | none, some _ => True
  | some _, none => False
  | some d, some d' => d' ≤ d

theorem evictPrio_le_dominates (ts k : Nat) (a b : FrameAccessInfo)
    (h : evictPrio ts k a ≤ evictPrio ts k b) : EvictDominates ts k b a := by
  unfold EvictDominates
  unfold evictPrio at h
  rcases hb : b.k_distance ts k with _ | d <;>
    rcases ha : a.k_distance ts k with _ | d' <;>
    rw [hb, ha] at h
  · intro e e' he he'
    rw [he] at h
    rw [he'] at h
    have := Sum.Lex.inr_le_inr_iff.mp h
    exact WithTop.coe_le_coe.mp (OrderDual.toDual_le_toDual.mp this)
  · trivial
  · rcases hea : a.earliest_timestamp with _ | e <;> rw [hea] at h <;>
      exact absurd h Sum.Lex.not_inr_le_inl
  · exact Sum.Lex.inl_le_inl_iff.mp h

/-- **C1.** `LruKReplacer::evict` returns `none` iff no tracked frame is
evictable; otherwise it returns some evictable tracked frame, removes
that frame's entry from the replacer, and the returned frame dominates
every evictable tracked frame in the LRU-K order: its backward
k-distance (`current_ts − history[len − k]` when `len ≥ k`, +∞
otherwise) is largest, with ties among +∞ frames broken by the smallest
earliest-access timestamp. -/
theorem evict_spec (r : LruKReplacer) :
    (r.evict.1 = none ↔ ∀ p ∈ r.frame_info, p.2.is_evictable = false) ∧
    (∀ fid, r.evict.1 = some fid →
      ∃ info, (fid, info) ∈ r.frame_info ∧ info.is_evictable = true ∧
        r.evict.2.frame_info = r.frame_info.eraseP (fun p => p.1 == fid) ∧
        ∀ q ∈ r.frame_info, q.2.is_evictable = true →
          EvictDominates r.current_timestamp r.k info q.2) := by
  have hinv : ScanInv r.current_timestamp r.k r.frame_info
      (evictScan r.current_timestamp r.k r.frame_info none) := by
    have h0 : ScanInv r.current_timestamp r.k [] none := by
      intro p hp; exact absurd hp (List.not_mem_nil p)
    simpa using evictScan_inv r.current_timestamp r.k r.frame_info [] none h0
  by_cases hz : r.num_evictable = 0
  · have hall : ∀ p ∈ r.frame_info, p.2.is_evictable = false := by
      intro p hp
      by_contra hne
      have hpe : p.2.is_evictable = true := by
        revert hne; cases p.2.is_evictable <;> simp
      have : p ∈ r.frame_info.filter (fun p => p.2.is_evictable) :=
        List.mem_filter.mpr ⟨hp, hpe⟩
      have : r.frame_info.filter (fun p => p.2.is_evictable) ≠ [] :=
        List.ne_nil_of_mem this
      exact this (List.length_eq_zero.mp hz)
    constructor
    · exact ⟨fun _ => hall, fun _ => by simp [LruKReplacer.evict, hz]⟩
    · intro fid hfid
      rw [LruKReplacer.evict, if_pos hz] at hfid
      exact absurd hfid (by simp)
  · have hex : ∃ p ∈ r.frame_info, p.2.is_evictable = true := by
      rcases List.exists_mem_of_ne_nil _ (List.length_pos.mp (Nat.pos_of_ne_zero hz))
        with ⟨p, hp⟩
      exact ⟨p, (List.mem_filter.mp hp).1, (List.mem_filter.mp hp).2⟩
    rcases hscan : evictScan r.current_timestamp r.k r.frame_info none with
      _ | ⟨fid0, kd, ed⟩
    · rw [hscan] at hinv
      rcases hex with ⟨p, hp, hpe⟩
      have := hinv p hp
      rw [this] at hpe
      exact absurd hpe (by simp)
    · rw [hscan] at hinv
      obtain ⟨info, hmem, hie, _, _, hmax⟩ := hinv
      have hres : r.evict = (some fid0,
          { r with frame_info := r.frame_info.eraseP (fun p => p.1 == fid0) }) := by
        rw [LruKReplacer.evict, if_neg hz, hscan]
      constructor
      · rw [hres]
        constructor
        · intro h; exact absurd h (by simp)
        · intro hall
          rw [hall (fid0, info) hmem] at hie
          exact absurd hie (by simp)
      · intro fid hfid
        rw [hres] at hfid
        have : fid0 = fid := by simpa using hfid
        subst this
        refine ⟨info, hmem, hie, by rw [hres], ?_⟩
        intro q hq hqe
        exact evictPrio_le_dominates _ _ _ _ (hmax q hq hqe)

/-! ## B+-tree search (src/index/btree_page.rs, src/index/btree_index.rs)

Keys are `u32` in the source and only compared, so they are modelled as
`Nat`.  A node's key/value/child arrays are lists; `get_key`/`get_child`
out-of-range reads (which the source never performs on well-formed
nodes) are modelled with `getD` defaults. -/

/-- `RecordId`: `(page_id, slot_id)`. -/
structure RecordId where
  page_id : Nat
  slot_id : Nat
  deriving DecidableEq

/-- `BTreeNodeRef::search_key`'s binary-search loop, carrying
`left`/`right`. -/
def searchKeyAux (keys : List Nat) (key : Nat) (left right : Nat) : Nat :=
  if h : left < right then
    let mid := left + (right - left) / 2
    if keys.getD mid 0 < key then searchKeyAux keys key (mid + 1) right
    else searchKeyAux keys key left mid
  else left
termination_by right - left
decreasing_by
  · omega
  · omega

/-- `BTreeNodeRef::search_key`: binary search over the node's keys. -/
def search_key (keys : List Nat) (key : Nat) : Nat :=
  searchKeyAux keys key 0 keys.length

/-- Modelled from the spec's words: the first index `p` with
`keys[p] ≥ key` (`keys.length` when there is none). -/
def lowerBound : List Nat → Nat → Nat
  | [], _ => 0
  | x :: xs, key => if key ≤ x then 0 else lowerBound xs key + 1

/-- An in-memory B+-tree as reached through page guards: a leaf holds
keys and record-id values, an internal node holds keys and
`num_keys + 1` children. -/
inductive BTreeN where
  | leaf (keys : List Nat) (vals : List RecordId)
  | internal (keys : List Nat) (children : List BTreeN)

/-- The node invariants (spec §3): keys strictly ascending, a leaf's
value array parallel to its keys, an internal node with `num_keys + 1`
children, recursively. -/
def WellFormed : BTreeN → Prop
  | .leaf ks vs => ks.Pairwise (· < ·) ∧ vs.length = ks.length
  | .internal ks cs => ks.Pairwise (· < ·) ∧ cs.length = ks.length + 1 ∧
      ∀ c ∈ cs, WellFormed c
decreasing_by
  have := List.sizeOf_lt_of_mem ‹c ∈ cs›
  simp only [BTreeN.internal.sizeOf_spec]
  omega

/-- `BTreeIndex::find_leaf`: descend from the node, choosing child
`pos + 1` when `pos < num_keys` and `keys[pos] == key`, else child
`pos`, with `pos = search_key(key)`. -/
def find_leaf : BTreeN → Nat → BTreeN
  | .leaf ks vs, _ => .leaf ks vs
  | .internal ks cs, key =>
    let pos := search_key ks key
    let child_index := if pos < ks.length ∧ ks.getD pos 0 = key then pos + 1 else pos
    match hc : cs.get? child_index with
    | some c => find_leaf c key
    | none => .leaf [] []
decreasing_by
  have := List.sizeOf_lt_of_mem (List.get?_mem hc)
  simp only [BTreeN.internal.sizeOf_spec]
  omega

/-- `BTreeIndex::search`: find the leaf, then return the value at
`pos = search_key(key)` iff `pos` is in range and `keys[pos] == key`. -/
def searchBTree (t : BTreeN) (key : Nat) : Option RecordId :=
  match find_leaf t key with
  | .leaf ks vs =>
    let pos := search_key ks key
    if pos < ks.length ∧ ks.getD pos 0 = key then some (vs.getD pos ⟨0, 0⟩) else none
  | .internal _ _ => none

/-- Modelled from the spec's words: the same descent and leaf lookup,
with each node's position computed as the first index `p` with
`keys[p] ≥ key`. -/
def find_leaf_spec : BTreeN → Nat → BTreeN
  | .leaf ks vs, _ => .leaf ks vs
  | .internal ks cs, key =>
    let pos := lowerBound ks key
    let child_index := if pos < ks.length ∧ ks.getD pos 0 = key then pos + 1 else pos
    match hc : cs.get? child_index with
    | some c => find_leaf_spec c key
    | none => .leaf [] []
decreasing_by
  have := List.sizeOf_lt_of_mem (List.get?_mem hc)
  simp only [BTreeN.internal.sizeOf_spec]
  omega

/-- Modelled from the spec's words: `search` with the first-index
characterisation in place of the binary search. -/
def searchBTree_spec (t : BTreeN) (key : Nat) : Option RecordId :=
  match find_leaf_spec t key with
  | .leaf ks vs =>
    let pos := lowerBound ks key
    if pos < ks.length ∧ ks.getD pos 0 = key then some (vs.getD pos ⟨0, 0⟩) else none
  | .internal _ _ => none

theorem lowerBound_le_length (ks : List Nat) (key : Nat) :
    lowerBound ks key ≤ ks.length := by
  induction ks with
  | nil => simp [lowerBound]
  | cons x xs ih =>
    by_cases h : key ≤ x <;> simp [lowerBound, h]
    omega

theorem lowerBound_lt_of_lt (ks : List Nat) (key : Nat) :
    ∀ i, i < lowerBound ks key → ks.getD i 0 < key := by
  induction ks with
  | nil => simp [lowerBound]
  | cons x xs ih =>
    intro i hi
    by_cases h : key ≤ x
    · rw [lowerBound, if_pos h] at hi; omega
    · rw [lowerBound, if_neg h] at hi
      match i with
      | 0 => simpa using Nat.lt_of_not_le h
      | j + 1 => exact ih j (by omega)

theorem lowerBound_ge (ks : List Nat) (key : Nat)
    (h : lowerBound ks key < ks.length) : key ≤ ks.getD (lowerBound ks key) 0 := by
  induction ks with
  | nil => simp [lowerBound] at h
  | cons x xs ih =>
    by_cases hx : key ≤ x
    · simpa [lowerBound, hx] using hx
    · rw [lowerBound, if_neg hx] at h ⊢
      simpa using ih (by simpa using h)

/-- A sorted list's `getD` values are monotone on in-range indices. -/
theorem sorted_getD_le (ks : List Nat) (hs : ks.Pairwise (· ≤ ·))
    {i j : Nat} (hij : i ≤ j) (hj : j < ks.length) :
    ks.getD i 0 ≤ ks.getD j 0 := by
  rcases Nat.eq_or_lt_of_le hij with rfl | hlt
  · exact le_refl _
  · have hi : i < ks.length := lt_trans hlt hj
    rw [List.getD_eq_get _ _ hi, List.getD_eq_get _ _ hj]
    exact List.pairwise_iff_get.mp hs ⟨i, hi⟩ ⟨j, hj⟩ hlt

theorem searchKeyAux_spec (ks : List Nat) (key : Nat)
    (hs : ks.Pairwise (· ≤ ·)) :
    ∀ n left right, right - left ≤ n → left ≤ right → right ≤ ks.length →
      (∀ i, i < left → ks.getD i 0 < key) →
      (∀ i, right ≤ i → i < ks.length → key ≤ ks.getD i 0) →
      (∀ i, i < searchKeyAux ks key left right → ks.getD i 0 < key) ∧
        (searchKeyAux ks key left right < ks.length →
          key ≤ ks.getD (searchKeyAux ks key left right) 0) ∧
        searchKeyAux ks key left right ≤ ks.length := by
  intro n
  induction n with
  | zero =>
    intro left right hn hlr hrl hlo hhi
    have : ¬ left < right := by omega
    rw [searchKeyAux, dif_neg this]
    exact ⟨hlo, fun h => hhi left (by omega) h, by omega⟩
  | succ n ih =>
    intro left right hn hlr hrl hlo hhi
    by_cases hlt : left < right
    · rw [searchKeyAux, dif_pos hlt]
      set mid := left + (right - left) / 2 with hmid
      have hmr : mid < right := by omega
      have hml : left ≤ mid := by omega
      by_cases hk : ks.getD mid 0 < key
      · rw [if_pos hk]
        refine ih (mid + 1) right (by omega) (by omega) hrl ?_ hhi
        intro i hi
        exact lt_of_le_of_lt (sorted_getD_le ks hs (by omega) (by omega)) hk
      · rw [if_neg hk]
        refine ih left mid (by omega) (by omega) (by omega) hlo ?_
        intro i hmi hil
        exact le_trans (Nat.le_of_not_lt hk) (sorted_getD_le ks hs hmi hil)
    · rw [searchKeyAux, dif_neg hlt]
      exact ⟨hlo, fun h => hhi left (by omega) h, by omega⟩

/-- On a sorted key array the binary search computes exactly the first
index with `keys[p] ≥ key`. -/
theorem search_key_eq_lowerBound (ks : List Nat) (key : Nat)
    (hs : ks.Pairwise (· ≤ ·)) : search_key ks key = lowerBound ks key := by
  obtain ⟨h1, h2, h3⟩ := searchKeyAux_spec ks key hs ks.length 0 ks.length
    (by omega) (by omega) (le_refl _) (by omega) (fun i hi hil => by omega)
  set r := searchKeyAux ks key 0 ks.length with hr
  have hlb1 := lowerBound_lt_of_lt ks key
  have hlb3 := lowerBound_le_length ks key
  rw [search_key, ← hr]
  rcases Nat.lt_trichotomy r (lowerBound ks key) with h | h | h
  · exact absurd (h2 (by omega)) (Nat.not_le_of_lt (hlb1 r h))
  · exact h
  · exact absurd (lowerBound_ge ks key (by omega)) (Nat.not_le_of_lt (h1 _ h))

theorem find_leaf_eq_spec (t : BTreeN) (key : Nat) :
    WellFormed t → find_leaf t key = find_leaf_spec t key ∧ WellFormed (find_leaf t key) := by
  induction t, key using find_leaf.induct with
  | case1 ks vs x =>
    intro h
    refine ⟨by simp [find_leaf, find_leaf_spec], ?_⟩
    simpa only [find_leaf] using h
  | case2 ks cs key pos cidx c hc ih =>
    intro h
    unfold WellFormed at h
    obtain ⟨hsort, hlen, hall⟩ := h
    have hwf : WellFormed c := hall c (List.get?_mem hc)
    have heq : search_key ks key = lowerBound ks key :=
      search_key_eq_lowerBound ks key (hsort.imp le_of_lt)
    obtain ⟨ih1, ih2⟩ := ih hwf
    have hc' : cs.get? (if search_key ks key < ks.length ∧
        ks.getD (search_key ks key) 0 = key then search_key ks key + 1
        else search_key ks key) = some c := hc
    have hc2 : cs.get? (if lowerBound ks key < ks.length ∧
        ks.getD (lowerBound ks key) 0 = key then lowerBound ks key + 1
        else lowerBound ks key) = some c := by rw [← heq]; exact hc'
    have h1 : find_leaf (.internal ks cs) key = find_leaf c key := by
      simp only [find_leaf]
      split
      · rename_i c1 hcc
        rw [hc'] at hcc; injection hcc with hcc; rw [hcc]
      · rename_i hcc
        rw [hc'] at hcc; cases hcc
    have h2 : find_leaf_spec (.internal ks cs) key = find_leaf_spec c key := by
      simp only [find_leaf_spec]
      split
      · rename_i c1 hcc
        rw [hc2] at hcc; injection hcc with hcc; rw [hcc]
      · rename_i hcc
        rw [hc2] at hcc; cases hcc
    exact ⟨by rw [h1, h2]; exact ih1, by rw [h1]; exact ih2⟩
  | case3 ks cs key pos cidx hc =>
    intro h
    unfold WellFormed at h
    obtain ⟨hsort, hlen, _⟩ := h
    have heq : search_key ks key = lowerBound ks key :=
      search_key_eq_lowerBound ks key (hsort.imp le_of_lt)
    have hc' : cs.get? (if search_key ks key < ks.length ∧
        ks.getD (search_key ks key) 0 = key then search_key ks key + 1
        else search_key ks key) = none := hc
    have hc2 : cs.get? (if lowerBound ks key < ks.length ∧
        ks.getD (lowerBound ks key) 0 = key then lowerBound ks key + 1
        else lowerBound ks key) = none := by rw [← heq]; exact hc'
    have h1 : find_leaf (.internal ks cs) key = .leaf [] [] := by
      simp only [find_leaf]
      split
      · rename_i c1 hcc
        rw [hc'] at hcc; cases hcc
      · rfl
    have h2 : find_leaf_spec (.internal ks cs) key = .leaf [] [] := by
      simp only [find_leaf_spec]
      split
      · rename_i c1 hcc
        rw [hc2] at hcc; cases hcc
      · rfl
    refine ⟨by rw [h1, h2], ?_⟩
    rw [h1]
    unfold WellFormed
    exact ⟨List.Pairwise.nil, rfl⟩

/-- **C2.** On any B+-tree satisfying the node invariants, `search`
agrees with the specification search: descend by the first index `p`
with `keys[p] ≥ key` (computed by binary search), visiting child
`p + 1` when `p` is in range and `keys[p] == key` and child `p`
otherwise, and at the leaf return the value at `p` iff `p` is in range
and `keys[p] == key`.  The second conjunct checks that `lowerBound` is
that first index. -/
theorem btree_search_correct (t : BTreeN) (key : Nat) (h : WellFormed t) :
    searchBTree t key = searchBTree_spec t key ∧
      (∀ ks : List Nat,
        (∀ i, i < lowerBound ks key → ks.getD i 0 < key) ∧
          (lowerBound ks key < ks.length → key ≤ ks.getD (lowerBound ks key) 0)) := by
  obtain ⟨heq, hwf⟩ := find_leaf_eq_spec t key h
  constructor
  · rw [searchBTree, searchBTree_spec, ← heq]
    rcases hl : find_leaf t key with ⟨ks, vs⟩ | ⟨ks, cs⟩
    · rw [hl] at hwf
      rw [WellFormed] at hwf
      have : search_key ks key = lowerBound ks key :=
        search_key_eq_lowerBound ks key (hwf.1.imp le_of_lt)
      simp only [this]
    · rfl
  · intro ks
    exact ⟨lowerBound_lt_of_lt ks key, lowerBound_ge ks key⟩

/-- A concrete two-level tree used to witness C2. -/
def c2tree : BTreeN :=
  .internal [10] [.leaf [5] [⟨1, 1⟩], .leaf [10, 20] [⟨2, 2⟩, ⟨3, 3⟩]]

theorem c2tree_wf : WellFormed c2tree := by
  unfold c2tree WellFormed
  refine ⟨by decide, rfl, ?_⟩
  intro c hc
  simp only [List.mem_cons, List.not_mem_nil, or_false] at hc
  rcases hc with rfl | rfl
  · unfold WellFormed; exact ⟨by decide, rfl⟩
  · unfold WellFormed; exact ⟨by decide, rfl⟩

/-- Witness for C2 at a concrete two-level tree and key `10`. -/
theorem btree_search_correct_witness :
    WellFormed c2tree ∧
      (searchBTree c2tree 10 = searchBTree_spec c2tree 10 ∧
        (∀ ks : List Nat,
          (∀ i, i < lowerBound ks 10 → ks.getD i 0 < 10) ∧
            (lowerBound ks 10 < ks.length → 10 ≤ ks.getD (lowerBound ks 10) 0))) :=
  ⟨c2tree_wf, btree_search_correct c2tree 10 c2tree_wf⟩

/-! ## Extent allocator (src/storage/disk/extent_allocator.rs)

`EXTENT_SIZE = 8`; an extent's `u8` bitmap and count are `Nat`s.  The
two `HashMap`s are association lists; `entry().or_insert` appends a
missing key. -/

/-- `EXTENT_SIZE`. -/
def EXTENT_SIZE : Nat := 8

/-- Per-extent bitmap of allocated positions plus allocation count. -/
structure ExtentInfo where
  allocated_bitmap : Nat
  allocated_count : Nat
  deriving DecidableEq

/-- `ExtentInfo::new`. -/
def ExtentInfo.new : ExtentInfo :=
  { allocated_bitmap := 0, allocated_count := 0 }

/-- `ExtentInfo::is_full`. -/
def ExtentInfo.is_full (info : ExtentInfo) : Bool :=
  info.allocated_count == EXTENT_SIZE

/-- The `for i in 0..EXTENT_SIZE` scan of `ExtentInfo::allocate_next`,
starting at bit `i`: the first clear bit at or after `i`. -/
def lowestFreeBitFrom (bitmap i : Nat) : Option Nat :=
  if _h : i < EXTENT_SIZE then
    if bitmap.testBit i then lowestFreeBitFrom bitmap (i + 1) else some i
  else none
termination_by EXTENT_SIZE - i

/-- `ExtentInfo::allocate_next`: refuse when the count has reached
`EXTENT_SIZE`, else set the lowest clear bit and bump the count. -/
def ExtentInfo.allocate_next (info : ExtentInfo) : Option (Nat × ExtentInfo) :=
  if EXTENT_SIZE ≤ info.allocated_count then none
  else
    match lowestFreeBitFrom info.allocated_bitmap 0 with
    | some i => some (i,
        { allocated_bitmap := info.allocated_bitmap ||| 2 ^ i,
          allocated_count := info.allocated_count + 1 })
    | none => none

/-- The extent-allocator state: per-table extent lists, per-extent
info, and the fresh-extent counter. -/
structure ExtentAllocator where
  table_extents : List (Nat × List Nat)
  extent_info : List (Nat × ExtentInfo)
  next_extent_id : Nat
  deriving DecidableEq

/-- The `for &extent_id in extents.iter().rev()` loop of
`allocate_page_for_table` (applied to the already-reversed list):
skip extents with no info, full extents, and extents whose
`allocate_next` fails; stop at the first successful allocation. -/
def allocWalk (extent_info : List (Nat × ExtentInfo)) :
    List Nat → Option (Nat × Nat × ExtentInfo)
  | [] => none
  | eid :: rest =>
    match List.lookup eid extent_info with
    | some info =>
      if info.is_full then allocWalk extent_info rest
      else
        match info.allocate_next with
        | some (off, info') => some (eid, off, info')
        | none => allocWalk extent_info rest
    | none => allocWalk extent_info rest

/-- `HashMap` upsert on an association list. -/
def upsertList {α : Type} (l : List (Nat × α)) (key : Nat) (v : α) : List (Nat × α) :=
  match l.lookup key with
  | some _ => l.map (fun p => if p.1 = key then (key, v) else p)
  | none => l ++ [(key, v)]

/-- `ExtentAllocator::allocate_page_for_table` (always `Ok` in the
source, so the `Result` wrapper is dropped): walk the table's extents
newest-first; on success update that extent's info; otherwise mint
`next_extent_id`, allocate its bit 0 (`allocate_next().unwrap()` on a
fresh info; the unreachable failure branch returns the state
unchanged), insert the info and push the extent onto the table's
list. -/
def ExtentAllocator.allocate_page_for_table (a : ExtentAllocator) (table_id : Nat) :
    Nat × ExtentAllocator :=
  let extents := (a.table_extents.lookup table_id).getD []
  let te0 :=
    match a.table_extents.lookup table_id with
    | some _ => a.table_extents
    | none => a.table_extents ++ [(table_id, [])]
  match allocWalk a.extent_info extents.reverse with
  | some (eid, off, info') =>
    (eid * EXTENT_SIZE + off,
      { a with
        table_extents := te0,
        extent_info := a.extent_info.map (fun p => if p.1 = eid then (eid, info') else p) })
  | none =>
    let eid := a.next_extent_id
    match ExtentInfo.new.allocate_next with
    | some (off, info') =>
      (eid * EXTENT_SIZE + off,
        { table_extents := upsertList te0 table_id (extents ++ [eid]),
          extent_info := a.extent_info ++ [(eid, info')],
          next_extent_id := eid + 1 })
    | none => (0, a)

/-- The number of set bits among positions `0..EXTENT_SIZE` of a
bitmap (spec invariant: `popcount(b) == allocated_count`). -/
def popcount8 (bitmap : Nat) : Nat :=
  (List.range EXTENT_SIZE).countP (fun i => bitmap.testBit i)

/-- Claim-side description of the walk: the first extent id in the
given (newest-first) list whose recorded info is not full. -/
def firstNonFull (extent_info : List (Nat × ExtentInfo)) : List Nat → Option Nat
  | [] => none
  | eid :: rest =>
    match List.lookup eid extent_info with
    | some info => if info.is_full then firstNonFull extent_info rest else some eid
    | none => firstNonFull extent_info rest

theorem lowestFreeBitFrom_some (bitmap : Nat) :
    ∀ n i off, EXTENT_SIZE - i ≤ n → lowestFreeBitFrom bitmap i = some off →
      off < EXTENT_SIZE ∧ i ≤ off ∧ bitmap.testBit off = false ∧
        ∀ j, i ≤ j → j < off → bitmap.testBit j = true := by
  intro n
  induction n with
  | zero =>
    intro i off hn h
    rw [lowestFreeBitFrom, dif_neg (by omega)] at h
    cases h
  | succ n ih =>
    intro i off hn h
    rw [lowestFreeBitFrom] at h
    by_cases hi : i < EXTENT_SIZE
    · rw [dif_pos hi] at h
      by_cases hb : bitmap.testBit i
      · rw [if_pos hb] at h
        obtain ⟨h1, h2, h3, h4⟩ := ih (i + 1) off (by omega) h
        refine ⟨h1, by omega, h3, ?_⟩
        intro j hj hjo
        rcases Nat.eq_or_lt_of_le hj with rfl | hlt
        · exact hb
        · exact h4 j hlt hjo
      · rw [if_neg hb] at h
        injection h with h
        subst h
        refine ⟨hi, le_refl _, by simpa using hb, ?_⟩
        intro j hj hjo
        exact absurd (lt_of_le_of_lt hj hjo) (lt_irrefl _)
    · rw [dif_neg hi] at h
      cases h

theorem lowestFreeBitFrom_zero_isSome (bitmap : Nat) (h : popcount8 bitmap < EXTENT_SIZE) :
    ∃ off, lowestFreeBitFrom bitmap 0 = some off := by
  have hlen : (List.range EXTENT_SIZE).length = EXTENT_SIZE := List.length_range _
  have hnall : ¬ ∀ j ∈ List.range EXTENT_SIZE, bitmap.testBit j = true := by
    intro hall
    have : popcount8 bitmap = EXTENT_SIZE := by
      rw [popcount8, ← hlen]
      exact List.countP_eq_length.mpr (fun a ha => by simpa using hall a ha)
    omega
  push_neg at hnall
  obtain ⟨j, hj, hjb⟩ := hnall
  have hjlt : j < EXTENT_SIZE := List.mem_range.mp hj
  rcases hresult : lowestFreeBitFrom bitmap 0 with _ | off
  · exfalso
    have hforall : ∀ m j, EXTENT_SIZE - j ≤ m → lowestFreeBitFrom bitmap j = none →
        ∀ i, j ≤ i → i < EXTENT_SIZE → bitmap.testBit i = true := by
      intro m
      induction m with
      | zero => intro j hm hn i hji hi; omega
      | succ m ihm =>
        intro j hm hn i hji hi
        rw [lowestFreeBitFrom, dif_pos (by omega)] at hn
        by_cases hb : bitmap.testBit j
        · rw [if_pos hb] at hn
          rcases Nat.eq_or_lt_of_le hji with rfl | hlt
          · exact hb
          · exact ihm (j + 1) (by omega) hn i (by omega) hi
        · rw [if_neg hb] at hn
          cases hn
    have := hforall EXTENT_SIZE 0 (by omega) hresult j (by omega) hjlt
    exact absurd this (by simpa using hjb)
  · exact ⟨off, rfl⟩

theorem lookup_mem {β : Type} {l : List (Nat × β)} {k : Nat} {v : β}
    (h : List.lookup k l = some v) : (k, v) ∈ l := by
  induction l with
  | nil => cases h
  | cons hd tl ih =>
    obtain ⟨k', v'⟩ := hd
    by_cases hk : k = k'
    · subst hk
      simp only [List.lookup_cons_self] at h
      injection h with h
      subst h
      exact List.mem_cons_self _ _
    · rw [List.lookup_cons] at h
      rw [show (k == k') = false from beq_eq_false_iff_ne.mpr hk] at h
      exact List.mem_cons_of_mem _ (ih h)

theorem lookup_map_upsert {β : Type} (l : List (Nat × β)) (k : Nat) (v : β) (old : β)
    (hl : l.lookup k = some old) :
    List.lookup k (l.map (fun p => if p.1 = k then (k, v) else p)) = some v := by
  induction l with
  | nil => cases hl
  | cons hd tl ih =>
    obtain ⟨k', v'⟩ := hd
    by_cases hk : k = k'
    · subst hk
      simp only [List.map_cons, if_pos rfl]
      exact List.lookup_cons_self
    · have hbeq : (k == k') = false := beq_eq_false_iff_ne.mpr hk
      rw [List.lookup_cons, hbeq] at hl
      simp only [List.map_cons, if_neg (by simpa using Ne.symm hk)]
      rw [List.lookup_cons, hbeq]
      exact ih hl

theorem lookup_upsert {β : Type} (l : List (Nat × β)) (k : Nat) (v : β) :
    List.lookup k (upsertList l k v) = some v := by
  rw [upsertList]
  rcases hl : l.lookup k with _ | old
  · rw [List.lookup_append, hl]
    simp [List.lookup_cons_self]
  · exact lookup_map_upsert l k v old hl

theorem allocWalk_spec (extent_info : List (Nat × ExtentInfo)) (l : List Nat)
    (hinfo : ∀ eid ∈ l, (List.lookup eid extent_info).isSome = true)
    (hcount : ∀ p ∈ extent_info, p.2.allocated_count = popcount8 p.2.allocated_bitmap) :
    (∀ eid, firstNonFull extent_info l = some eid →
      ∃ info off info', List.lookup eid extent_info = some info ∧
        info.is_full = false ∧ info.allocate_next = some (off, info') ∧
        allocWalk extent_info l = some (eid, off, info')) ∧
    (firstNonFull extent_info l = none → allocWalk extent_info l = none) := by
  induction l with
  | nil =>
    constructor
    · intro eid h
      rw [firstNonFull] at h
      cases h
    · intro _
      rfl
  | cons hd tl ih =>
    have hhd : (List.lookup hd extent_info).isSome = true := hinfo hd (by simp)
    rcases hl : List.lookup hd extent_info with _ | info
    · rw [hl] at hhd; cases hhd
    · obtain ⟨ih1, ih2⟩ := ih (fun eid he => hinfo eid (by simp [he]))
      by_cases hfull : info.is_full = true
      · constructor
        · intro eid he
          simp only [firstNonFull, hl, hfull, if_true] at he
          obtain ⟨i1, i2, i3, i4, i5, i6, i7⟩ := ih1 eid he
          refine ⟨i1, i2, i3, i4, i5, i6, ?_⟩
          simp only [allocWalk, hl, hfull, if_true]
          exact i7
        · intro he
          simp only [firstNonFull, hl, hfull, if_true] at he
          simp only [allocWalk, hl, hfull, if_true]
          exact ih2 he
      · have hfull' : info.is_full = false := by
          revert hfull; cases info.is_full <;> simp
        have hcnt : info.allocated_count = popcount8 info.allocated_bitmap :=
          hcount (hd, info) (lookup_mem hl)
        have hcountlt : info.allocated_count < EXTENT_SIZE := by
          have hne : info.allocated_count ≠ EXTENT_SIZE := by
            intro hh
            rw [ExtentInfo.is_full] at hfull'
            simp [hh] at hfull'
          have hle : popcount8 info.allocated_bitmap ≤ EXTENT_SIZE := by
            rw [popcount8]
            calc (List.range EXTENT_SIZE).countP _ ≤ (List.range EXTENT_SIZE).length :=
                  List.countP_le_length _
              _ = EXTENT_SIZE := List.length_range _
          omega
        obtain ⟨off, hoff⟩ := lowestFreeBitFrom_zero_isSome info.allocated_bitmap
          (by omega)
        have halloc : info.allocate_next = some (off,
            { allocated_bitmap := info.allocated_bitmap ||| 2 ^ off,
              allocated_count := info.allocated_count + 1 }) := by
          rw [ExtentInfo.allocate_next, if_neg (by omega), hoff]
        constructor
        · intro eid he
          simp only [firstNonFull, hl, hfull', if_false] at he
          injection he with he
          subst he
          refine ⟨info, off, _, hl, hfull', halloc, ?_⟩
          simp only [allocWalk, hl, hfull', halloc]
          rfl
        · intro he
          simp only [firstNonFull, hl, hfull', if_false] at he
          cases he

theorem allocate_page_for_table_spec (a : ExtentAllocator) (table_id : Nat)
    (hinfo : ∀ eid ∈ (a.table_extents.lookup table_id).getD [],
      (List.lookup eid a.extent_info).isSome = true)
    (hcount : ∀ p ∈ a.extent_info,
      p.2.allocated_count = popcount8 p.2.allocated_bitmap) :
    (∀ eid, firstNonFull a.extent_info
        ((a.table_extents.lookup table_id).getD []).reverse = some eid →
      ∃ info off, List.lookup eid a.extent_info = some info ∧
        info.is_full = false ∧
        info.allocated_bitmap.testBit off = false ∧
        (∀ j, j < off → info.allocated_bitmap.testBit j = true) ∧
        (a.allocate_page_for_table table_id).1 = eid * EXTENT_SIZE + off) ∧
    (firstNonFull a.extent_info
        ((a.table_extents.lookup table_id).getD []).reverse = none →
      (a.allocate_page_for_table table_id).1 = a.next_extent_id * EXTENT_SIZE ∧
      (a.allocate_page_for_table table_id).2.table_extents.lookup table_id =
        some (((a.table_extents.lookup table_id).getD []) ++ [a.next_extent_id]) ∧
      (a.allocate_page_for_table table_id).2.next_extent_id = a.next_extent_id + 1) := by
  have hinfo' : ∀ eid ∈ ((a.table_extents.lookup table_id).getD []).reverse,
      (List.lookup eid a.extent_info).isSome = true := by
    intro eid he
    exact hinfo eid (List.mem_reverse.mp he)
  obtain ⟨w1, w2⟩ := allocWalk_spec a.extent_info
    ((a.table_extents.lookup table_id).getD []).reverse hinfo' hcount
  constructor
  · intro eid he
    obtain ⟨info, off, info', hl, hfl, halloc, hwalk⟩ := w1 eid he
    have hoff : lowestFreeBitFrom info.allocated_bitmap 0 = some off := by
      rw [ExtentInfo.allocate_next] at halloc
      by_cases hc : EXTENT_SIZE ≤ info.allocated_count
      · rw [if_pos hc] at halloc; cases halloc
      · rw [if_neg hc] at halloc
        rcases hres : lowestFreeBitFrom info.allocated_bitmap 0 with _ | off0
        · simp only [hres] at halloc
          cases halloc
        · simp only [hres] at halloc
          injection halloc with halloc
          have hoo : off0 = off := congrArg Prod.fst halloc
          rw [← hoo]
    obtain ⟨hlt, _, hbit, hlow⟩ := lowestFreeBitFrom_some info.allocated_bitmap
      EXTENT_SIZE 0 off (by omega) hoff
    refine ⟨info, off, hl, hfl, hbit, fun j hj => hlow j (by omega) hj, ?_⟩
    rw [ExtentAllocator.allocate_page_for_table]
    simp only [hwalk]
  · intro he
    have hwalk := w2 he
    have hbit0 : lowestFreeBitFrom 0 0 = some 0 := by
      rw [lowestFreeBitFrom]
      norm_num [EXTENT_SIZE]
    have hfresh : ExtentInfo.new.allocate_next =
        some (0, { allocated_bitmap := 1, allocated_count := 1 }) := by
      rw [ExtentInfo.allocate_next]
      simp only [ExtentInfo.new]
      rw [if_neg (by norm_num [EXTENT_SIZE])]
      rw [hbit0]
      norm_num
    refine ⟨?_, ?_, ?_⟩
    · rw [ExtentAllocator.allocate_page_for_table]
      simp only [hwalk, hfresh]
      omega
    · rw [ExtentAllocator.allocate_page_for_table]
      simp only [hwalk, hfresh]
      exact lookup_upsert _ table_id _
    · rw [ExtentAllocator.allocate_page_for_table]
      simp only [hwalk, hfresh]

/-- A concrete allocator state used to witness C8: table 1 owns extent
0, whose bitmap has its two lowest bits set. -/
def c8alloc : ExtentAllocator :=
  { table_extents := [(1, [0])],
    extent_info := [(0, { allocated_bitmap := 3, allocated_count := 2 })],
    next_extent_id := 1 }

/-- Witness for C8 at a concrete allocator and table id. -/
theorem allocate_page_for_table_spec_witness :
    (∀ eid ∈ (c8alloc.table_extents.lookup 1).getD [],
      (List.lookup eid c8alloc.extent_info).isSome = true) ∧
    (∀ p ∈ c8alloc.extent_info,
      p.2.allocated_count = popcount8 p.2.allocated_bitmap) ∧
    ((∀ eid, firstNonFull c8alloc.extent_info
        ((c8alloc.table_extents.lookup 1).getD []).reverse = some eid →
      ∃ info off, List.lookup eid c8alloc.extent_info = some info ∧
        info.is_full = false ∧
        info.allocated_bitmap.testBit off = false ∧
        (∀ j, j < off → info.allocated_bitmap.testBit j = true) ∧
        (c8alloc.allocate_page_for_table 1).1 = eid * EXTENT_SIZE + off) ∧
    (firstNonFull c8alloc.extent_info
        ((c8alloc.table_extents.lookup 1).getD []).reverse = none →
      (c8alloc.allocate_page_for_table 1).1 = c8alloc.next_extent_id * EXTENT_SIZE ∧
      (c8alloc.allocate_page_for_table 1).2.table_extents.lookup 1 =
        some (((c8alloc.table_extents.lookup 1).getD []) ++ [c8alloc.next_extent_id]) ∧
      (c8alloc.allocate_page_for_table 1).2.next_extent_id = c8alloc.next_extent_id + 1)) :=
  ⟨by decide, by decide, allocate_page_for_table_spec c8alloc 1 (by decide) (by decide)⟩

/-! ## Slotted page (src/storage/page/slotted_page.rs)

`PAGE_SIZE = 4096`, 16-byte header, 4-byte slot entries.  The header
fields and the slot array (which the source stores inside the page's
byte buffer behind paired get/set accessors) are record fields; the
tuple-data area is a byte function indexed by absolute page offset, so
that tuple writes and reads alias exactly as in the source.  `u16`
arithmetic never underflows on the paths taken (guarded by
`can_insert`), so offsets are `Nat`s. -/

/-- `PAGE_SIZE`. -/
def PAGE_SIZE : Nat := 4096

/-- `SLOT_SIZE`: bytes per slot entry. -/
def SLOT_SIZE : Nat := 4

/-- A slot entry `{offset, length}`; `length == 0` denotes a deleted
slot. -/
structure SlotEntry where
  offset : Nat
  length : Nat
  deriving DecidableEq

/-- `SlotEntry::empty`. -/
def SlotEntry.empty : SlotEntry := ⟨0, 0⟩

/-- `SlotEntry::is_empty`. -/
def SlotEntry.is_empty (e : SlotEntry) : Bool := e.length == 0

/-- The error cases surfaced by the page and buffer-pool operations
(`CrioError`). -/
inductive CrioErr where
  | PageOverflow (tuple_size available : Nat)
  | InvalidSlotId (slot : Nat)
  | EmptySlot (slot : Nat)
  | PageStillPinned (page_id : Nat)
  | BufferPoolFull
  deriving DecidableEq

/-- A slotted page: header fields, slot array (`num_slots` is its
length), and the data bytes. -/
structure SlottedPage where
  page_id : Nat
  slots : List SlotEntry
  free_space_start : Nat
  free_space_end : Nat
  data : Nat → Nat

/-- `copy_from_slice`: write the byte list starting at `off`. -/
def writeBytes (d : Nat → Nat) (off : Nat) : List Nat → (Nat → Nat)
  | [] => d
  | b :: rest => writeBytes (Function.update d off b) (off + 1) rest

/-- Read `len` bytes starting at `off`. -/
def readBytes (d : Nat → Nat) (off len : Nat) : List Nat :=
  (List.range len).map (fun i => d (off + i))

/-- `SlottedPage::num_slots`. -/
def SlottedPage.num_slots (p : SlottedPage) : Nat := p.slots.length

/-- `SlottedPage::free_space`: `end.saturating_sub(start)`. -/
def SlottedPage.free_space (p : SlottedPage) : Nat :=
  p.free_space_end - p.free_space_start

/-- `SlottedPage::can_insert`. -/
def SlottedPage.can_insert (p : SlottedPage) (tuple_size : Nat) : Bool :=
  decide (tuple_size + SLOT_SIZE ≤ p.free_space)

/-- `SlottedPage::get_slot`: `none` when the slot id is at or beyond
`num_slots`. -/
def SlottedPage.get_slot (p : SlottedPage) (slot_id : Nat) : Option SlotEntry :=
  p.slots.get? slot_id

/-- The scan of `find_or_create_slot` over the existing slots: the
first slot id whose entry is empty. -/
def findEmptySlot : List SlotEntry → Option Nat
  | [] => none
  | e :: rest => if e.is_empty then some 0 else (findEmptySlot rest).map (· + 1)

/-- `SlottedPage::insert_tuple`.  (The source updates
`free_space_start` before `set_slot` so that the in-buffer slot-array
base is computed correctly; in this record model the slot array is a
field, so the order is immaterial.) -/
def SlottedPage.insert_tuple (p : SlottedPage) (tuple : List Nat) :
    Except CrioErr (Nat × SlottedPage) :=
  let tuple_size := tuple.length
  if ¬ p.can_insert tuple_size then
    .error (.PageOverflow tuple_size (p.free_space - SLOT_SIZE))
  else
    let fc :=
      match findEmptySlot p.slots with
      | some i => (i, p.slots, p.free_space_start)
      | none => (p.slots.length, p.slots ++ [SlotEntry.empty],
          p.free_space_start + SLOT_SIZE)
    let tuple_offset := p.free_space_end - tuple_size
    .ok (fc.1, { p with
      slots := fc.2.1.set fc.1 ⟨tuple_offset, tuple_size⟩,
      free_space_start := fc.2.2,
      free_space_end := tuple_offset,
      data := writeBytes p.data tuple_offset tuple })

/-- `SlottedPage::get_tuple`. -/
def SlottedPage.get_tuple (p : SlottedPage) (slot_id : Nat) :
    Except CrioErr (List Nat) :=
  match p.get_slot slot_id with
  | none => .error (.InvalidSlotId slot_id)
  | some entry =>
    if entry.is_empty then .error (.EmptySlot slot_id)
    else .ok (readBytes p.data entry.offset entry.length)

/-- `SlottedPage::delete_tuple`: mark the slot empty. -/
def SlottedPage.delete_tuple (p : SlottedPage) (slot_id : Nat) :
    Except CrioErr SlottedPage :=
  match p.get_slot slot_id with
  | none => .error (.InvalidSlotId slot_id)
  | some _ => .ok { p with slots := p.slots.set slot_id SlotEntry.empty }

/-- The collection loop of `SlottedPage::compact`: the live `(slot_id,
bytes)` pairs, in slot order. -/
def compactCollect (p : SlottedPage) : List (Nat × List Nat) :=
  (List.range p.slots.length).filterMap (fun i =>
    match p.get_tuple i with
    | .ok bytes => some (i, bytes)
    | .error _ => none)

/-- The reinsertion loop of `SlottedPage::compact`. -/
def compactFold : List (Nat × List Nat) → SlottedPage → SlottedPage
  | [], q => q
  | (slot_id, tuple) :: rest, q =>
    let tuple_offset := q.free_space_end - tuple.length
    compactFold rest { q with
      data := writeBytes q.data tuple_offset tuple,
      slots := q.slots.set slot_id ⟨tuple_offset, tuple.length⟩,
      free_space_end := tuple_offset }

/-- The state after `compact`'s reset phase: `free_space_end` back to
`PAGE_SIZE`, every slot cleared. -/
def clearedPage (p : SlottedPage) : SlottedPage :=
  { p with free_space_end := PAGE_SIZE,
           slots := p.slots.map (fun _ => SlotEntry.empty) }

/-- `SlottedPage::compact`: collect the live tuples, reset
`free_space_end` to `PAGE_SIZE`, clear every slot, reinsert the live
tuples in order. -/
def SlottedPage.compact (p : SlottedPage) : SlottedPage :=
  if p.slots.length = 0 then p
  else compactFold (compactCollect p) (clearedPage p)

/-! ### Byte-level helper lemmas -/

theorem writeBytes_apply (bs : List Nat) :
    ∀ (d : Nat → Nat) (off i : Nat),
      writeBytes d off bs i =
        if off ≤ i ∧ i < off + bs.length then bs.getD (i - off) 0 else d i := by
  induction bs with
  | nil =>
    intro d off i
    rw [writeBytes]
    rw [if_neg (by simp only [List.length_nil]; omega)]
  | cons b rest ih =>
    intro d off i
    rw [writeBytes, ih]
    by_cases h1 : off + 1 ≤ i ∧ i < off + 1 + rest.length
    · rw [if_pos h1, if_pos (by simp only [List.length_cons]; omega)]
      have : i - off = (i - (off + 1)) + 1 := by omega
      rw [this]
      rfl
    · rw [if_neg h1]
      by_cases h2 : i = off
      · subst h2
        rw [Function.update_same, if_pos (by simp only [List.length_cons]; omega)]
        simp
      · rw [Function.update_noteq h2]
        rw [if_neg (by simp only [List.length_cons]; omega)]

theorem readBytes_congr (d1 d2 : Nat → Nat) (off len : Nat)
    (h : ∀ i, off ≤ i → i < off + len → d1 i = d2 i) :
    readBytes d1 off len = readBytes d2 off len := by
  rw [readBytes, readBytes]
  apply List.map_congr_left
  intro i hi
  have := List.mem_range.mp hi
  exact h (off + i) (by omega) (by omega)

theorem readBytes_writeBytes (d : Nat → Nat) (off : Nat) (bs : List Nat) :
    readBytes (writeBytes d off bs) off bs.length = bs := by
  apply List.ext_getElem
  · simp [readBytes]
  · intro i h1 h2
    simp only [readBytes, List.getElem_map, List.getElem_range]
    rw [writeBytes_apply]
    rw [if_pos (by omega)]
    rw [Nat.add_sub_cancel_left]
    exact List.getD_eq_getElem bs 0 h2


theorem get?_set_self {α : Type} (l : List α) (i : Nat) (a : α) (h : i < l.length) :
    (l.set i a).get? i = some a := by
  induction l generalizing i with
  | nil => simp at h
  | cons hd tl ih =>
    match i with
    | 0 => rfl
    | j + 1 => exact ih j (by simpa using h)

theorem get?_set_ne {α : Type} (l : List α) (i j : Nat) (a : α) (h : i ≠ j) :
    (l.set i a).get? j = l.get? j := by
  induction l generalizing i j with
  | nil => simp
  | cons hd tl ih =>
    match i, j with
    | 0, 0 => exact absurd rfl h
    | 0, k + 1 => rfl
    | m + 1, 0 => rfl
    | m + 1, k + 1 => exact ih m k (by omega)

theorem findEmptySlot_some (l : List SlotEntry) :
    ∀ i, findEmptySlot l = some i →
      (∃ e, l.get? i = some e ∧ e.is_empty = true) ∧
        ∀ j, j < i → ∀ e, l.get? j = some e → e.is_empty = false := by
  induction l with
  | nil => intro i h; cases h
  | cons e rest ih =>
    intro i h
    rw [findEmptySlot] at h
    by_cases he : e.is_empty = true
    · rw [if_pos he] at h
      injection h with h
      subst h
      exact ⟨⟨e, rfl, he⟩, fun j hj => absurd hj (Nat.not_lt_zero j)⟩
    · rw [if_neg he] at h
      have he' : e.is_empty = false := by
        revert he; cases e.is_empty <;> simp
      rcases hr : findEmptySlot rest with _ | i0
      · rw [hr] at h; cases h
      · rw [hr] at h
        simp only [Option.map_some'] at h
        injection h with h
        subst h
        obtain ⟨⟨e0, hget, hemp⟩, hprev⟩ := ih i0 hr
        constructor
        · exact ⟨e0, by simpa using hget, hemp⟩
        · intro j hj e' hh
          match j with
          | 0 =>
            injection hh with hh
            subst hh
            exact he'
          | k + 1 => exact hprev k (by omega) e' (by simpa using hh)

theorem findEmptySlot_none (l : List SlotEntry) :
    findEmptySlot l = none → ∀ e ∈ l, e.is_empty = false := by
  induction l with
  | nil => intro _ e he; cases he
  | cons hd rest ih =>
    intro h e he
    rw [findEmptySlot] at h
    by_cases hh : hd.is_empty = true
    · rw [if_pos hh] at h; cases h
    · rw [if_neg hh] at h
      have hh' : hd.is_empty = false := by
        revert hh; cases hd.is_empty <;> simp
      cases he with
      | head => exact hh'
      | tail _ hmem =>
        rcases hr : findEmptySlot rest with _ | i0
        · exact ih hr e hmem
        · rw [hr] at h; cases h

/-- **C4.** `insert_tuple` fails (with `PageOverflow`) iff
`free_space < len + SLOT_SIZE`; on success it reuses the
lowest-numbered existing empty slot without growing the slot array, or
else appends a slot and advances `free_space_start` by 4; the tuple
bytes land at `free_space_end − len` and `free_space_end` becomes that
offset. -/
theorem insert_tuple_spec (p : SlottedPage) (tuple : List Nat) :
    ((∃ e, p.insert_tuple tuple = .error e) ↔
      p.free_space < tuple.length + SLOT_SIZE) ∧
    (p.free_space < tuple.length + SLOT_SIZE →
      p.insert_tuple tuple =
        .error (.PageOverflow tuple.length (p.free_space - SLOT_SIZE))) ∧
    (∀ sid q, p.insert_tuple tuple = .ok (sid, q) →
      ((findEmptySlot p.slots = some sid ∧
          q.slots.length = p.slots.length ∧
          q.free_space_start = p.free_space_start ∧
          (∃ e, p.slots.get? sid = some e ∧ e.is_empty = true) ∧
          (∀ j, j < sid → ∀ e, p.slots.get? j = some e → e.is_empty = false)) ∨
        (findEmptySlot p.slots = none ∧ sid = p.slots.length ∧
          q.slots.length = p.slots.length + 1 ∧
          q.free_space_start = p.free_space_start + SLOT_SIZE ∧
          (∀ e ∈ p.slots, e.is_empty = false))) ∧
      q.free_space_end = p.free_space_end - tuple.length ∧
      q.slots.get? sid = some ⟨p.free_space_end - tuple.length, tuple.length⟩ ∧
      readBytes q.data (p.free_space_end - tuple.length) tuple.length = tuple) := by
  by_cases hcan : p.free_space < tuple.length + SLOT_SIZE
  · have hni : ¬ p.can_insert tuple.length = true := by
      rw [SlottedPage.can_insert]
      simpa using hcan
    have herr : p.insert_tuple tuple =
        .error (.PageOverflow tuple.length (p.free_space - SLOT_SIZE)) := by
      rw [SlottedPage.insert_tuple, if_pos hni]
    refine ⟨⟨fun _ => hcan, fun _ => ⟨_, herr⟩⟩, fun _ => herr, ?_⟩
    intro sid q hok
    rw [herr] at hok
    cases hok
  · have hci : p.can_insert tuple.length = true := by
      rw [SlottedPage.can_insert]
      simpa using Nat.le_of_not_lt hcan
    have hnot : ¬ ¬ p.can_insert tuple.length = true := by simp [hci]
    constructor
    · constructor
      · intro ⟨e, he⟩
        rw [SlottedPage.insert_tuple, if_neg hnot] at he
        cases he
      · intro h; exact absurd h hcan
    constructor
    · intro h; exact absurd h hcan
    · intro sid q hok
      rw [SlottedPage.insert_tuple, if_neg hnot] at hok
      rcases hfind : findEmptySlot p.slots with _ | i
      · simp only [hfind] at hok
        injection hok with hok
        have hsid : sid = p.slots.length := (congrArg Prod.fst hok).symm
        have hq : q = { p with
            slots := (p.slots ++ [SlotEntry.empty]).set p.slots.length
              ⟨p.free_space_end - tuple.length, tuple.length⟩,
            free_space_start := p.free_space_start + SLOT_SIZE,
            free_space_end := p.free_space_end - tuple.length,
            data := writeBytes p.data (p.free_space_end - tuple.length) tuple } := by
          have := congrArg Prod.snd hok
          simpa [hsid] using this.symm
      
        subst hsid
        refine ⟨Or.inr ⟨rfl, rfl, ?_, ?_, findEmptySlot_none p.slots hfind⟩, ?_, ?_, ?_⟩
        · rw [hq]; simp
        · rw [hq]
        · rw [hq]
        · rw [hq]
          apply get?_set_self
          simp
        · rw [hq]
          exact readBytes_writeBytes p.data _ tuple
      · simp only [hfind] at hok
        injection hok with hok
        have hsid : sid = i := (congrArg Prod.fst hok).symm
        have hq : q = { p with
            slots := p.slots.set i ⟨p.free_space_end - tuple.length, tuple.length⟩,
            free_space_start := p.free_space_start,
            free_space_end := p.free_space_end - tuple.length,
            data := writeBytes p.data (p.free_space_end - tuple.length) tuple } := by
          have := congrArg Prod.snd hok
          simpa [hsid] using this.symm
        subst hsid
        obtain ⟨⟨e0, hget, hemp⟩, hprev⟩ := findEmptySlot_some p.slots sid hfind
        have hlen : sid < p.slots.length := by
          by_contra hc
          rw [List.get?_eq_none.mpr (Nat.le_of_not_lt hc)] at hget
          cases hget
        refine ⟨Or.inl ⟨rfl, ?_, ?_, ⟨e0, hget, hemp⟩, hprev⟩, ?_, ?_, ?_⟩
        · rw [hq]; simp
        · rw [hq]
        · rw [hq]
        · rw [hq]
          exact get?_set_self p.slots sid _ hlen
        · rw [hq]
          exact readBytes_writeBytes p.data _ tuple

/-! ### Compaction (claims C9 and C10) -/

theorem compactFold_frame (ts : List (Nat × List Nat)) :
    ∀ q : SlottedPage,
      (compactFold ts q).free_space_start = q.free_space_start ∧
      (compactFold ts q).slots.length = q.slots.length ∧
      (∀ i, (∀ t ∈ ts, t.1 ≠ i) →
        (compactFold ts q).slots.get? i = q.slots.get? i) := by
  induction ts with
  | nil => exact fun q => ⟨rfl, rfl, fun i _ => rfl⟩
  | cons hd rest ih =>
    intro q
    obtain ⟨i0, bs⟩ := hd
    rw [compactFold]
    obtain ⟨f1, f2, f3⟩ := ih { q with
      data := writeBytes q.data (q.free_space_end - bs.length) bs,
      slots := q.slots.set i0 ⟨q.free_space_end - bs.length, bs.length⟩,
      free_space_end := q.free_space_end - bs.length }
    refine ⟨f1, by rw [f2]; simp, ?_⟩
    intro i hi
    rw [f3 i (fun t ht => hi t (List.mem_cons_of_mem _ ht))]
    exact get?_set_ne q.slots i0 i _ (hi (i0, bs) (List.mem_cons_self _ _))

theorem compactFold_live (ts : List (Nat × List Nat)) :
    ∀ q : SlottedPage,
      (ts.map Prod.fst).Nodup →
      (∀ t ∈ ts, t.1 < q.slots.length) →
      (ts.map (fun t => t.2.length)).sum ≤ q.free_space_end →
      (compactFold ts q).free_space_end =
          q.free_space_end - (ts.map (fun t => t.2.length)).sum ∧
      (∀ t ∈ ts, ∃ off, (compactFold ts q).slots.get? t.1 =
          some ⟨off, t.2.length⟩ ∧
          readBytes (compactFold ts q).data off t.2.length = t.2) ∧
      (∀ j, (j < q.free_space_end - (ts.map (fun t => t.2.length)).sum ∨
          q.free_space_end ≤ j) → (compactFold ts q).data j = q.data j) := by
  induction ts with
  | nil =>
    intro q _ _ _
    exact ⟨by simp [compactFold], fun t ht => absurd ht (List.not_mem_nil t),
      fun j _ => rfl⟩
  | cons hd rest ih =>
    intro q hnd hlt hsum
    obtain ⟨i0, bs⟩ := hd
    rw [compactFold]
    set q' : SlottedPage := { q with
      data := writeBytes q.data (q.free_space_end - bs.length) bs,
      slots := q.slots.set i0 ⟨q.free_space_end - bs.length, bs.length⟩,
      free_space_end := q.free_space_end - bs.length } with hq'
    have hsum0 : bs.length + (rest.map (fun t => t.2.length)).sum ≤ q.free_space_end := by
      simpa using hsum
    have hfe : q'.free_space_end = q.free_space_end - bs.length := rfl
    have h0 : (i0 :: rest.map Prod.fst).Nodup := by
      rw [List.map_cons] at hnd
      exact hnd
    have hnd' : (rest.map Prod.fst).Nodup := (List.nodup_cons.mp h0).2
    have hi0nr : ∀ t ∈ rest, t.1 ≠ i0 := by
      intro t ht heq
      refine (List.nodup_cons.mp h0).1 ?_
      rw [← heq]
      exact List.mem_map_of_mem Prod.fst ht
    obtain ⟨g1, g2, g3⟩ := ih q' hnd'
      (fun t ht => by
        have := hlt t (List.mem_cons_of_mem _ ht)
        simpa [hq', List.length_set] using this)
      (by rw [hfe]; omega)
    obtain ⟨f1, f2, f3⟩ := compactFold_frame rest q'
    have hi0lt : i0 < q.slots.length := hlt (i0, bs) (List.mem_cons_self _ _)
    refine ⟨?_, ?_, ?_⟩
    · rw [g1, hfe]
      simp only [List.map_cons, List.sum_cons]
      omega
    · intro t ht
      rcases List.mem_cons.mp ht with rfl | ht
      · refine ⟨q.free_space_end - bs.length, ?_, ?_⟩
        · rw [f3 i0 hi0nr]
          exact get?_set_self q.slots i0 _ hi0lt
        · have hagree : ∀ j, q.free_space_end - bs.length ≤ j →
              j < q.free_space_end - bs.length + bs.length →
              (compactFold rest q').data j = q'.data j := by
            intro j hj _
            exact g3 j (Or.inr (by rw [hfe]; omega))
          rw [readBytes_congr _ q'.data _ _ hagree]
          have : q'.data = writeBytes q.data (q.free_space_end - bs.length) bs := rfl
          rw [this]
          exact readBytes_writeBytes q.data _ bs
      · exact g2 t ht
    · intro j hj
      simp only [List.map_cons, List.sum_cons] at hj
      have hj' : j < q'.free_space_end - (rest.map (fun t => t.2.length)).sum ∨
          q'.free_space_end ≤ j := by
        rw [hfe]
        rcases hj with hj | hj
        · left; omega
        · right; omega
      rw [g3 j hj']
      have : q'.data = writeBytes q.data (q.free_space_end - bs.length) bs := rfl
      rw [this, writeBytes_apply]
      rw [if_neg ?_]
      rcases hj with hj | hj
      · intro ⟨h1, h2⟩
        omega
      · intro ⟨h1, h2⟩
        omega

theorem filterMap_map_fst {β : Type} (f : Nat → Option (Nat × β)) (l : List Nat)
    (hf : ∀ i t, f i = some t → t.1 = i) :
    (l.filterMap f).map Prod.fst = l.filter (fun i => (f i).isSome) := by
  induction l with
  | nil => rfl
  | cons hd tl ih =>
    rw [List.filterMap_cons, List.filter_cons]
    rcases hfd : f hd with _ | t
    · simp only [hfd, Option.isSome_none, Bool.false_eq_true, if_false]
      exact ih
    · simp only [hfd, Option.isSome_some, if_true, List.map_cons]
      rw [ih, hf hd t hfd]

theorem compactCollect_mem (p : SlottedPage) :
    ∀ t ∈ compactCollect p, t.1 < p.slots.length ∧ p.get_tuple t.1 = .ok t.2 := by
  intro t ht
  rw [compactCollect] at ht
  obtain ⟨i, hi, hit⟩ := List.mem_filterMap.mp ht
  rcases hgt : p.get_tuple i with e | bytes
  · rw [hgt] at hit; cases hit
  · rw [hgt] at hit
    injection hit with hit
    subst hit
    exact ⟨List.mem_range.mp hi, hgt⟩

theorem compactCollect_fst_eq (p : SlottedPage) :
    ∀ i t, (match p.get_tuple i with
      | .ok bytes => some (i, bytes)
      | .error _ => none) = some t → t.1 = i := by
  intro i t h
  rcases hgt : p.get_tuple i with e | bytes <;> rw [hgt] at h
  · cases h
  · injection h with h; rw [← h]

theorem compactCollect_nodup (p : SlottedPage) :
    ((compactCollect p).map Prod.fst).Nodup := by
  rw [compactCollect, filterMap_map_fst _ _ (compactCollect_fst_eq p)]
  exact (List.nodup_range _).filter _

theorem compactCollect_complete (p : SlottedPage) (i : Nat) (bs : List Nat)
    (h : p.get_tuple i = .ok bs) : (i, bs) ∈ compactCollect p := by
  have hlt : i < p.slots.length := by
    rw [SlottedPage.get_tuple] at h
    rcases hg : p.get_slot i with _ | e
    · rw [hg] at h; cases h
    · by_contra hc
      rw [SlottedPage.get_slot, List.get?_eq_none.mpr (Nat.le_of_not_lt hc)] at hg
      cases hg
  rw [compactCollect]
  exact List.mem_filterMap.mpr ⟨i, List.mem_range.mpr hlt, by rw [h]⟩

theorem get_tuple_length (p : SlottedPage) (i : Nat) (bs : List Nat)
    (h : p.get_tuple i = .ok bs) :
    ∃ e, p.slots.get? i = some e ∧ e.is_empty = false ∧ bs.length = e.length := by
  rw [SlottedPage.get_tuple] at h
  rcases hg : p.get_slot i with _ | e
  · rw [hg] at h; cases h
  · simp only [hg] at h
    by_cases he : e.is_empty = true
    · rw [if_pos he] at h; cases h
    · rw [if_neg he] at h
      injection h with h
      refine ⟨e, hg, by revert he; cases e.is_empty <;> simp, ?_⟩
      rw [← h, readBytes]
      simp

/-- **C10.** `compact` never shrinks the slot array: `num_slots` is
preserved, so every previously in-range slot id stays in range, and
`get_tuple` on a previously deleted slot returns `EmptySlot` (not
`InvalidSlotId`). -/
theorem compact_preserves_slots (p : SlottedPage) :
    (p.compact).num_slots = p.num_slots ∧
    (∀ i e, p.slots.get? i = some e → e.is_empty = true →
      (p.compact).get_tuple i = .error (.EmptySlot i)) := by
  rw [SlottedPage.compact]
  by_cases hn : p.slots.length = 0
  · rw [if_pos hn]
    refine ⟨rfl, ?_⟩
    intro i e hget hemp
    have : i < p.slots.length := by
      by_contra hc
      rw [List.get?_eq_none.mpr (Nat.le_of_not_lt hc)] at hget
      cases hget
    omega
  · rw [if_neg hn]
    obtain ⟨f1, f2, f3⟩ := compactFold_frame (compactCollect p) (clearedPage p)
    constructor
    · rw [SlottedPage.num_slots, SlottedPage.num_slots, f2]
      simp [clearedPage]
    · intro i e hget hemp
      have hne : ∀ t ∈ compactCollect p, t.1 ≠ i := by
        intro t ht heq
        obtain ⟨_, hok⟩ := compactCollect_mem p t ht
        rw [heq] at hok
        obtain ⟨e', hget', hemp', _⟩ := get_tuple_length p i t.2 hok
        rw [hget] at hget'
        injection hget' with hget'
        rw [← hget'] at hemp'
        rw [hemp] at hemp'
        cases hemp'
      have hgi : (compactFold (compactCollect p) (clearedPage p)).slots.get? i =
          some SlotEntry.empty := by
        rw [f3 i hne]
        have hcl : (clearedPage p).slots.get? i =
            (p.slots.get? i).map (fun _ => SlotEntry.empty) :=
          List.get?_map (fun _ => SlotEntry.empty) p.slots i
        rw [hcl, hget]
        rfl
      rw [SlottedPage.get_tuple, SlottedPage.get_slot, hgi]
      rfl

/-- **C9.** `compact` rewrites all live tuples against the page tail
(`free_space_end` becomes `PAGE_SIZE` minus the total live size),
preserving each live tuple's slot id and bytes, leaves previously
deleted slots empty, and — when the live bytes do not fill the old
data area (some deleted tuple's bytes were still occupying it) —
strictly increases the free space. -/
theorem compact_spec (p : SlottedPage)
    (hsum : ((compactCollect p).map (fun t => t.2.length)).sum ≤ PAGE_SIZE) :
    (p.slots.length ≠ 0 → (p.compact).free_space_end =
        PAGE_SIZE - ((compactCollect p).map (fun t => t.2.length)).sum) ∧
    (∀ i bs, p.get_tuple i = .ok bs → (p.compact).get_tuple i = .ok bs) ∧
    (∀ i e, p.slots.get? i = some e → e.is_empty = true →
      ∃ e', (p.compact).slots.get? i = some e' ∧ e'.is_empty = true) ∧
    (p.free_space_start ≤ p.free_space_end →
      (∃ i e, p.slots.get? i = some e ∧ e.is_empty = true) →
      ((compactCollect p).map (fun t => t.2.length)).sum <
          PAGE_SIZE - p.free_space_end →
      p.free_space < (p.compact).free_space) := by
  by_cases hn : p.slots.length = 0
  · have hcompact : p.compact = p := by rw [SlottedPage.compact, if_pos hn]
    refine ⟨fun h => absurd hn h, ?_, ?_, ?_⟩
    · intro i bs h; rw [hcompact]; exact h
    · intro i e hget hemp
      exact ⟨e, by rw [hcompact]; exact hget, hemp⟩
    · intro _ hdel _
      obtain ⟨i, e, hget, _⟩ := hdel
      exfalso
      have : i < p.slots.length := by
        by_contra hc
        rw [List.get?_eq_none.mpr (Nat.le_of_not_lt hc)] at hget
        cases hget
      omega
  · have hcompact : p.compact = compactFold (compactCollect p) (clearedPage p) := by
      rw [SlottedPage.compact, if_neg hn]
    have hltc : ∀ t ∈ compactCollect p, t.1 < (clearedPage p).slots.length := by
      intro t ht
      have := (compactCollect_mem p t ht).1
      simpa [clearedPage] using this
    obtain ⟨g1, g2, g3⟩ := compactFold_live (compactCollect p) (clearedPage p)
      (compactCollect_nodup p) hltc (by simpa [clearedPage] using hsum)
    obtain ⟨f1, f2, f3⟩ := compactFold_frame (compactCollect p) (clearedPage p)
    refine ⟨?_, ?_, ?_, ?_⟩
    · intro _
      rw [hcompact, g1]
      rfl
    · intro i bs hok
      have hmem := compactCollect_complete p i bs hok
      obtain ⟨off, hgoff, hread⟩ := g2 (i, bs) hmem
      obtain ⟨e, _, hemp, hlenbs⟩ := get_tuple_length p i bs hok
      have hbs : bs.length ≠ 0 := by
        rw [hlenbs]
        intro hz
        rw [SlotEntry.is_empty] at hemp
        simp [hz] at hemp
      rw [hcompact]
      simp only [SlottedPage.get_tuple, SlottedPage.get_slot, hgoff]
      rw [if_neg (by simp [SlotEntry.is_empty, hbs])]
      rw [hread]
    · intro i e hget hemp
      have hne : ∀ t ∈ compactCollect p, t.1 ≠ i := by
        intro t ht heq
        obtain ⟨_, hok⟩ := compactCollect_mem p t ht
        rw [heq] at hok
        obtain ⟨e', hget', hemp', _⟩ := get_tuple_length p i t.2 hok
        rw [hget] at hget'
        injection hget' with hget'
        rw [← hget'] at hemp'
        rw [hemp] at hemp'
        cases hemp'
      refine ⟨SlotEntry.empty, ?_, rfl⟩
      rw [hcompact, f3 i hne]
      have hcl : (clearedPage p).slots.get? i =
          (p.slots.get? i).map (fun _ => SlotEntry.empty) :=
        List.get?_map (fun _ => SlotEntry.empty) p.slots i
      rw [hcl, hget]
      rfl
    · intro hwf hdel hgar
      have hfse : (p.compact).free_space_end =
          PAGE_SIZE - ((compactCollect p).map (fun t => t.2.length)).sum := by
        rw [hcompact, g1]
        rfl
      have hfss : (p.compact).free_space_start = p.free_space_start := by
        rw [hcompact, f1]
        rfl
      rw [SlottedPage.free_space, SlottedPage.free_space, hfse, hfss]
      omega

/-- A concrete page used to witness C9: three slots, the middle one
deleted, live tuples near the page tail. -/
def c9page : SlottedPage :=
  { page_id := 1,
    slots := [⟨4091, 5⟩, ⟨0, 0⟩, ⟨4085, 6⟩],
    free_space_start := 28,
    free_space_end := 4080,
    data := fun _ => 7 }

/-- Witness for C9 at a concrete page. -/
theorem compact_spec_witness :
    ((compactCollect c9page).map (fun t => t.2.length)).sum ≤ PAGE_SIZE ∧
    ((c9page.slots.length ≠ 0 → (c9page.compact).free_space_end =
        PAGE_SIZE - ((compactCollect c9page).map (fun t => t.2.length)).sum) ∧
    (∀ i bs, c9page.get_tuple i = .ok bs → (c9page.compact).get_tuple i = .ok bs) ∧
    (∀ i e, c9page.slots.get? i = some e → e.is_empty = true →
      ∃ e', (c9page.compact).slots.get? i = some e' ∧ e'.is_empty = true) ∧
    (c9page.free_space_start ≤ c9page.free_space_end →
      (∃ i e, c9page.slots.get? i = some e ∧ e.is_empty = true) →
      ((compactCollect c9page).map (fun t => t.2.length)).sum <
          PAGE_SIZE - c9page.free_space_end →
      c9page.free_space < (c9page.compact).free_space)) :=
  ⟨by decide, compact_spec c9page (by decide)⟩

/-! ## B+-tree insertion with leaf splits (src/index/btree_index.rs)

The buffer pool is abstracted to a page store `Store = Nat → BTreePage`
(page id to page content); `new_page` hands out `next`, the
next-fresh-page counter.  Each node operation is the list-level model
of the corresponding byte-shifting loop of btree_page.rs.  `Result`
wrappers that are always `Ok` in the source are dropped. -/

/-- `DEFAULT_BTREE_ORDER` (`m = 128`). -/
def DEFAULT_BTREE_ORDER : Nat := 128

/-- A B+-tree node page: header links plus the key/value/child
arrays. -/
structure BTreePage where
  page_id : Nat
  is_leaf : Bool
  keys : List Nat
  vals : List RecordId
  children : List Nat
  next : Option Nat
  prev : Option Nat
  parent : Option Nat

/-- `BTreeNode::init`. -/
def BTreePage.init (page_id : Nat) (is_leaf : Bool) : BTreePage :=
  { page_id := page_id, is_leaf := is_leaf, keys := [], vals := [],
    children := [], next := none, prev := none, parent := none }

/-- `BTreeNode::insert_key_value`: shift keys and values up from the
binary-search position and write the new pair there. -/
def BTreePage.insert_key_value (n : BTreePage) (key : Nat) (v : RecordId) : BTreePage :=
  let pos := search_key n.keys key
  { n with keys := n.keys.take pos ++ key :: n.keys.drop pos,
           vals := n.vals.take pos ++ v :: n.vals.drop pos }

/-- `BTreeNode::split_leaf`: keep `[0..mid)`, hand back the separator
`keys[mid]` and the right pairs `[mid..]`. -/
def BTreePage.split_leaf (n : BTreePage) :
    Nat × List (Nat × RecordId) × BTreePage :=
  let mid := n.keys.length / 2
  (n.keys.getD mid 0, (n.keys.drop mid).zip (n.vals.drop mid),
    { n with keys := n.keys.take mid, vals := n.vals.take mid })

/-- `BTreeNode::insert_pairs` (on a freshly initialised node). -/
def BTreePage.insert_pairs (n : BTreePage) (pairs : List (Nat × RecordId)) : BTreePage :=
  { n with keys := pairs.map Prod.fst, vals := pairs.map Prod.snd }

/-- `BTreeNode::insert_key_child`: insert the key at the search
position and the child right of it. -/
def BTreePage.insert_key_child (n : BTreePage) (key : Nat) (child : Nat) : BTreePage :=
  let pos := search_key n.keys key
  { n with keys := n.keys.take pos ++ key :: n.keys.drop pos,
           children := n.children.take (pos + 1) ++ child :: n.children.drop (pos + 1) }

/-- `BTreeNode::split_internal`: promote `keys[mid]`, keep keys
`[0..mid)` and children `[0..=mid]`, hand back keys `(mid..]` and
children `(mid..]`. -/
def BTreePage.split_internal (n : BTreePage) :
    Nat × List Nat × List Nat × BTreePage :=
  let mid := n.keys.length / 2
  (n.keys.getD mid 0, n.keys.drop (mid + 1), n.children.drop (mid + 1),
    { n with keys := n.keys.take mid, children := n.children.take (mid + 1) })

/-- `BTreeNode::insert_keys_children` (on a freshly initialised node). -/
def BTreePage.insert_keys_children (n : BTreePage) (keys : List Nat)
    (children : List Nat) : BTreePage :=
  { n with keys := keys, children := children }

/-- The page store: page id to page content. -/
abbrev Store := Nat → BTreePage

mutual

/-- `BTreeIndex::insert_into_parent`, fuelled for the upward split
recursion; returns `(store, next fresh page id, root page id)`. -/
def insertIntoParent (s : Store) (next root parent_id key new_child_id : Nat) :
    Nat → Option (Store × Nat × Nat)
  | 0 => none
  | fuel + 1 =>
    if DEFAULT_BTREE_ORDER ≤ (s parent_id).keys.length then
      splitAndInsertInternal s next root parent_id key new_child_id fuel
    else
      some (Function.update s parent_id
        ((s parent_id).insert_key_child key new_child_id), next, root)
termination_by fuel => (fuel, 0)

/-- `BTreeIndex::split_and_insert_internal`. -/
def splitAndInsertInternal (s : Store) (next root internal_id key new_child_id : Nat)
    (fuel : Nat) : Option (Store × Nat × Nat) :=
  let node := (s internal_id).insert_key_child key new_child_id
  let parent_page := node.parent
  let sp := node.split_internal
  let s1 := Function.update s internal_id sp.2.2.2
  let new_internal_id := next
  let new_node := { (BTreePage.init new_internal_id false).insert_keys_children
      sp.2.1 sp.2.2.1 with parent := parent_page }
  let s2 := Function.update s1 new_internal_id new_node
  let s3 := sp.2.2.1.foldl (fun st cid =>
    Function.update st cid { st cid with parent := some new_internal_id }) s2
  match parent_page with
  | some pid => insertIntoParent s3 (next + 1) root pid sp.1 new_internal_id fuel
  | none =>
    let new_root_id := next + 1
    let s4 := Function.update s3 new_root_id
      ((BTreePage.init new_root_id false).insert_keys_children
        [sp.1] [internal_id, new_internal_id])
    let s5 := Function.update s4 internal_id
      { s4 internal_id with parent := some new_root_id }
    let s6 := Function.update s5 new_internal_id
      { s5 new_internal_id with parent := some new_root_id }
    some (s6, new_root_id + 1, new_root_id)
termination_by (fuel, 1)

end

/-- `BTreeIndex::split_and_insert_leaf`. -/
def splitAndInsertLeaf (s : Store) (next root leaf_id key : Nat) (v : RecordId)
    (fuel : Nat) : Option (Store × Nat × Nat) :=
  let node := (s leaf_id).insert_key_value key v
  let next_page := node.next
  let parent_page := node.parent
  let sp := node.split_leaf
  let s1 := Function.update s leaf_id sp.2.2
  let new_leaf_id := next
  let new_node := { (BTreePage.init new_leaf_id true).insert_pairs sp.2.1 with
    parent := parent_page, next := next_page, prev := some leaf_id }
  let s2 := Function.update s1 new_leaf_id new_node
  let s3 := Function.update s2 leaf_id { s2 leaf_id with next := some new_leaf_id }
  let s4 := match next_page with
    | some nid => Function.update s3 nid { s3 nid with prev := some new_leaf_id }
    | none => s3
  match parent_page with
  | some pid => insertIntoParent s4 (next + 1) root pid sp.1 new_leaf_id fuel
  | none =>
    let new_root_id := next + 1
    let s5 := Function.update s4 new_root_id
      ((BTreePage.init new_root_id false).insert_keys_children
        [sp.1] [leaf_id, new_leaf_id])
    let s6 := Function.update s5 leaf_id
      { s5 leaf_id with parent := some new_root_id }
    let s7 := Function.update s6 new_leaf_id
      { s6 new_leaf_id with parent := some new_root_id }
    some (s7, new_root_id + 1, new_root_id)

theorem searchKeyAux_le (ks : List Nat) (key : Nat) :
    ∀ n left right, right - left ≤ n → left ≤ right →
      searchKeyAux ks key left right ≤ right := by
  intro n
  induction n with
  | zero =>
    intro left right hn hlr
    rw [searchKeyAux, dif_neg (by omega)]
    omega
  | succ n ih =>
    intro left right hn hlr
    by_cases hlt : left < right
    · rw [searchKeyAux, dif_pos hlt]
      by_cases hk : ks.getD (left + (right - left) / 2) 0 < key
      · rw [if_pos hk]
        exact ih (left + (right - left) / 2 + 1) right (by omega) (by omega)
      · rw [if_neg hk]
        exact le_trans (ih left (left + (right - left) / 2) (by omega) (by omega))
          (by omega)
    · rw [searchKeyAux, dif_neg hlt]
      omega

theorem search_key_le (ks : List Nat) (key : Nat) : search_key ks key ≤ ks.length :=
  searchKeyAux_le ks key ks.length 0 ks.length (by omega) (by omega)

theorem insert_key_value_keys_length (n : BTreePage) (key : Nat) (v : RecordId) :
    (n.insert_key_value key v).keys.length = n.keys.length + 1 := by
  have := search_key_le n.keys key
  simp only [BTreePage.insert_key_value, List.length_append, List.length_take,
    List.length_cons, List.length_drop]
  omega

theorem insert_key_value_vals_length (n : BTreePage) (key : Nat) (v : RecordId)
    (hv : n.vals.length = n.keys.length) :
    (n.insert_key_value key v).vals.length = n.keys.length + 1 := by
  have := search_key_le n.keys key
  simp only [BTreePage.insert_key_value, List.length_append, List.length_take,
    List.length_cons, List.length_drop]
  omega

/-- **C3.** Inserting into a full leaf: the pair is first inserted into
the overfull leaf in place, the leaf is split at `mid = num_keys / 2`
(the post-insert count) with the right half `[mid..]` moved to a fresh
leaf, the separator is `keys[mid]`, the new leaf is linked into the
horizontal sibling list, and the separator is promoted to the parent —
when the parent exists and has room it receives the separator and the
new child; when there is no parent a fresh root internal node is
created with children `[old, new]` and the separator as its only
key. -/
theorem split_and_insert_leaf_spec
    (s : Store) (next root leaf_id key : Nat) (v : RecordId) (fuel : Nat)
    (hleaf : (s leaf_id).is_leaf = true)
    (hfull : DEFAULT_BTREE_ORDER ≤ (s leaf_id).keys.length)
    (hvlen : (s leaf_id).vals.length = (s leaf_id).keys.length)
    (hlid : leaf_id < next)
    (hsib : ∀ nid, (s leaf_id).next = some nid → nid < next ∧ nid ≠ leaf_id)
    (hfuel : 1 ≤ fuel) :
    ((s leaf_id).parent = none →
      ∃ s', splitAndInsertLeaf s next root leaf_id key v fuel =
          some (s', next + 2, next + 1) ∧
        (s' leaf_id).keys = ((s leaf_id).insert_key_value key v).keys.take (((s leaf_id).insert_key_value key v).keys.length / 2) ∧
        (s' leaf_id).vals = ((s leaf_id).insert_key_value key v).vals.take (((s leaf_id).insert_key_value key v).keys.length / 2) ∧
        (s' leaf_id).next = some next ∧
        (s' leaf_id).parent = some (next + 1) ∧
        (s' next).is_leaf = true ∧
        (s' next).keys = ((s leaf_id).insert_key_value key v).keys.drop (((s leaf_id).insert_key_value key v).keys.length / 2) ∧
        (s' next).vals = ((s leaf_id).insert_key_value key v).vals.drop (((s leaf_id).insert_key_value key v).keys.length / 2) ∧
        (s' next).prev = some leaf_id ∧
        (s' next).next = (s leaf_id).next ∧
        (s' next).parent = some (next + 1) ∧
        (s' (next + 1)).is_leaf = false ∧
        (s' (next + 1)).keys = [(((s leaf_id).insert_key_value key v).keys.getD (((s leaf_id).insert_key_value key v).keys.length / 2) 0)] ∧
        (s' (next + 1)).children = [leaf_id, next] ∧
        (∀ nid, (s leaf_id).next = some nid → (s' nid).prev = some next)) ∧
    (∀ pid, (s leaf_id).parent = some pid → pid < next → pid ≠ leaf_id →
      (∀ nid, (s leaf_id).next = some nid → pid ≠ nid) →
      (s pid).keys.length < DEFAULT_BTREE_ORDER →
      ∃ s', splitAndInsertLeaf s next root leaf_id key v fuel =
          some (s', next + 1, root) ∧
        (s' leaf_id).keys = ((s leaf_id).insert_key_value key v).keys.take (((s leaf_id).insert_key_value key v).keys.length / 2) ∧
        (s' leaf_id).vals = ((s leaf_id).insert_key_value key v).vals.take (((s leaf_id).insert_key_value key v).keys.length / 2) ∧
        (s' leaf_id).next = some next ∧
        (s' next).is_leaf = true ∧
        (s' next).keys = ((s leaf_id).insert_key_value key v).keys.drop (((s leaf_id).insert_key_value key v).keys.length / 2) ∧
        (s' next).vals = ((s leaf_id).insert_key_value key v).vals.drop (((s leaf_id).insert_key_value key v).keys.length / 2) ∧
        (s' next).prev = some leaf_id ∧
        (s' next).next = (s leaf_id).next ∧
        (s' next).parent = some pid ∧
        (∀ nid, (s leaf_id).next = some nid → (s' nid).prev = some next) ∧
        s' pid = (s pid).insert_key_child (((s leaf_id).insert_key_value key v).keys.getD (((s leaf_id).insert_key_value key v).keys.length / 2) 0) next) := by
  have hkl := insert_key_value_keys_length (s leaf_id) key v
  have hvl := insert_key_value_vals_length (s leaf_id) key v hvlen
  have e1 : leaf_id ≠ next := by omega
  have e2 : next ≠ leaf_id := by omega
  have e3 : leaf_id ≠ next + 1 := by omega
  have e4 : next + 1 ≠ leaf_id := by omega
  have e5 : next ≠ next + 1 := by omega
  have e6 : next + 1 ≠ next := by omega
  constructor
  · intro hpar
    rcases hnext : (s leaf_id).next with _ | nid
    · simp only [splitAndInsertLeaf, BTreePage.insert_key_value,
        BTreePage.split_leaf, BTreePage.insert_pairs, BTreePage.init,
        BTreePage.insert_keys_children, hpar, hnext]
      refine ⟨_, rfl, ?_, ?_, ?_, ?_, ?_, ?_, ?_, ?_, ?_, ?_, ?_, ?_, ?_, ?_⟩
      · simp [Function.update_apply, e1, e2, e3, e4, e5, e6, BTreePage.insert_key_value, BTreePage.split_leaf, BTreePage.insert_pairs,
      BTreePage.init, BTreePage.insert_keys_children, BTreePage.insert_key_child]
      · simp [Function.update_apply, e1, e2, e3, e4, e5, e6, BTreePage.insert_key_value, BTreePage.split_leaf, BTreePage.insert_pairs,
      BTreePage.init, BTreePage.insert_keys_children, BTreePage.insert_key_child]
      · simp [Function.update_apply, e1, e2, e3, e4, e5, e6, BTreePage.insert_key_value, BTreePage.split_leaf, BTreePage.insert_pairs,
      BTreePage.init, BTreePage.insert_keys_children, BTreePage.insert_key_child]
      · simp [Function.update_apply, e1, e2, e3, e4, e5, e6, BTreePage.insert_key_value, BTreePage.split_leaf, BTreePage.insert_pairs,
      BTreePage.init, BTreePage.insert_keys_children, BTreePage.insert_key_child]
      · simp [Function.update_apply, e1, e2, e3, e4, e5, e6, BTreePage.insert_key_value, BTreePage.split_leaf, BTreePage.insert_pairs,
      BTreePage.init, BTreePage.insert_keys_children, BTreePage.insert_key_child]
      · simp only [Function.update_apply]
        simp [e1, e2, e3, e4, e5, e6, BTreePage.insert_key_value, BTreePage.split_leaf, BTreePage.insert_pairs,
      BTreePage.init, BTreePage.insert_keys_children, BTreePage.insert_key_child]
        rw [List.map_fst_zip]
        simp only [List.length_drop, BTreePage.insert_key_value,
          List.length_append, List.length_take, List.length_cons] at hkl hvl ⊢
        omega
      · simp only [Function.update_apply]
        simp [e1, e2, e3, e4, e5, e6, BTreePage.insert_key_value, BTreePage.split_leaf, BTreePage.insert_pairs,
      BTreePage.init, BTreePage.insert_keys_children, BTreePage.insert_key_child]
        rw [List.map_snd_zip]
        simp only [List.length_drop, BTreePage.insert_key_value,
          List.length_append, List.length_take, List.length_cons] at hkl hvl ⊢
        omega
      · simp [Function.update_apply, e1, e2, e3, e4, e5, e6, BTreePage.insert_key_value, BTreePage.split_leaf, BTreePage.insert_pairs,
      BTreePage.init, BTreePage.insert_keys_children, BTreePage.insert_key_child]
      · simp [Function.update_apply, e1, e2, e3, e4, e5, e6, hnext, BTreePage.insert_key_value, BTreePage.split_leaf, BTreePage.insert_pairs,
      BTreePage.init, BTreePage.insert_keys_children, BTreePage.insert_key_child]
      · simp [Function.update_apply, e1, e2, e3, e4, e5, e6, BTreePage.insert_key_value, BTreePage.split_leaf, BTreePage.insert_pairs,
      BTreePage.init, BTreePage.insert_keys_children, BTreePage.insert_key_child]
      · simp [Function.update_apply, e1, e2, e3, e4, e5, e6, BTreePage.insert_key_value, BTreePage.split_leaf, BTreePage.insert_pairs,
      BTreePage.init, BTreePage.insert_keys_children, BTreePage.insert_key_child]
      · simp [Function.update_apply, e1, e2, e3, e4, e5, e6, BTreePage.insert_key_value, BTreePage.split_leaf, BTreePage.insert_pairs,
      BTreePage.init, BTreePage.insert_keys_children, BTreePage.insert_key_child]
      · simp [Function.update_apply, e1, e2, e3, e4, e5, e6, BTreePage.insert_key_value, BTreePage.split_leaf, BTreePage.insert_pairs,
      BTreePage.init, BTreePage.insert_keys_children, BTreePage.insert_key_child]
      · intro nid hn
        simp at hn
    · obtain ⟨hn1, hn2⟩ := hsib nid hnext
      have e7 : nid ≠ leaf_id := hn2
      have e8 : leaf_id ≠ nid := Ne.symm hn2
      have e9 : nid ≠ next := by omega
      have e10 : next ≠ nid := by omega
      have e11 : nid ≠ next + 1 := by omega
      have e12 : next + 1 ≠ nid := by omega
      simp only [splitAndInsertLeaf, BTreePage.insert_key_value,
        BTreePage.split_leaf, BTreePage.insert_pairs, BTreePage.init,
        BTreePage.insert_keys_children, hpar, hnext]
      refine ⟨_, rfl, ?_, ?_, ?_, ?_, ?_, ?_, ?_, ?_, ?_, ?_, ?_, ?_, ?_, ?_⟩
      · simp [Function.update_apply, e1, e2, e3, e4, e5, e6, e7, e8, e9, e10, e11, e12, BTreePage.insert_key_value, BTreePage.split_leaf, BTreePage.insert_pairs,
      BTreePage.init, BTreePage.insert_keys_children, BTreePage.insert_key_child]
      · simp [Function.update_apply, e1, e2, e3, e4, e5, e6, e7, e8, e9, e10, e11, e12, BTreePage.insert_key_value, BTreePage.split_leaf, BTreePage.insert_pairs,
      BTreePage.init, BTreePage.insert_keys_children, BTreePage.insert_key_child]
      · simp [Function.update_apply, e1, e2, e3, e4, e5, e6, e7, e8, e9, e10, e11, e12, BTreePage.insert_key_value, BTreePage.split_leaf, BTreePage.insert_pairs,
      BTreePage.init, BTreePage.insert_keys_children, BTreePage.insert_key_child]
      · simp [Function.update_apply, e1, e2, e3, e4, e5, e6, e7, e8, e9, e10, e11, e12, BTreePage.insert_key_value, BTreePage.split_leaf, BTreePage.insert_pairs,
      BTreePage.init, BTreePage.insert_keys_children, BTreePage.insert_key_child]
      · simp [Function.update_apply, e1, e2, e3, e4, e5, e6, e7, e8, e9, e10, e11, e12, BTreePage.insert_key_value, BTreePage.split_leaf, BTreePage.insert_pairs,
      BTreePage.init, BTreePage.insert_keys_children, BTreePage.insert_key_child]
      · simp only [Function.update_apply]
        simp [e1, e2, e3, e4, e5, e6, e7, e8, e9, e10, e11, e12, BTreePage.insert_key_value, BTreePage.split_leaf, BTreePage.insert_pairs,
      BTreePage.init, BTreePage.insert_keys_children, BTreePage.insert_key_child]
        rw [List.map_fst_zip]
        simp only [List.length_drop, BTreePage.insert_key_value,
          List.length_append, List.length_take, List.length_cons] at hkl hvl ⊢
        omega
      · simp only [Function.update_apply]
        simp [e1, e2, e3, e4, e5, e6, e7, e8, e9, e10, e11, e12, BTreePage.insert_key_value, BTreePage.split_leaf, BTreePage.insert_pairs,
      BTreePage.init, BTreePage.insert_keys_children, BTreePage.insert_key_child]
        rw [List.map_snd_zip]
        simp only [List.length_drop, BTreePage.insert_key_value,
          List.length_append, List.length_take, List.length_cons] at hkl hvl ⊢
        omega
      · simp [Function.update_apply, e1, e2, e3, e4, e5, e6, e7, e8, e9, e10, e11, e12, BTreePage.insert_key_value, BTreePage.split_leaf, BTreePage.insert_pairs,
      BTreePage.init, BTreePage.insert_keys_children, BTreePage.insert_key_child]
      · simp [Function.update_apply, e1, e2, e3, e4, e5, e6, e7, e8, e9, e10, e11, e12, hnext, BTreePage.insert_key_value, BTreePage.split_leaf, BTreePage.insert_pairs,
      BTreePage.init, BTreePage.insert_keys_children, BTreePage.insert_key_child]
      · simp [Function.update_apply, e1, e2, e3, e4, e5, e6, e7, e8, e9, e10, e11, e12, BTreePage.insert_key_value, BTreePage.split_leaf, BTreePage.insert_pairs,
      BTreePage.init, BTreePage.insert_keys_children, BTreePage.insert_key_child]
      · simp [Function.update_apply, e1, e2, e3, e4, e5, e6, e7, e8, e9, e10, e11, e12, BTreePage.insert_key_value, BTreePage.split_leaf, BTreePage.insert_pairs,
      BTreePage.init, BTreePage.insert_keys_children, BTreePage.insert_key_child]
      · simp [Function.update_apply, e1, e2, e3, e4, e5, e6, e7, e8, e9, e10, e11, e12, BTreePage.insert_key_value, BTreePage.split_leaf, BTreePage.insert_pairs,
      BTreePage.init, BTreePage.insert_keys_children, BTreePage.insert_key_child]
      · simp [Function.update_apply, e1, e2, e3, e4, e5, e6, e7, e8, e9, e10, e11, e12, BTreePage.insert_key_value, BTreePage.split_leaf, BTreePage.insert_pairs,
      BTreePage.init, BTreePage.insert_keys_children, BTreePage.insert_key_child]
      · intro nid2 hn2x
        injection hn2x with hn2x
        subst hn2x
        simp [Function.update_apply, e1, e2, e3, e4, e5, e6, e7, e8, e9, e10, e11, e12, BTreePage.insert_key_value, BTreePage.split_leaf, BTreePage.insert_pairs,
      BTreePage.init, BTreePage.insert_keys_children, BTreePage.insert_key_child]
  · intro pid hpar hpidlt hpidne hpidnid hnf
    obtain ⟨f, rfl⟩ : ∃ f, fuel = f + 1 := ⟨fuel - 1, by omega⟩
    have hof : ¬ DEFAULT_BTREE_ORDER ≤ (s pid).keys.length := not_le.mpr hnf
    have p1 : pid ≠ leaf_id := hpidne
    have p2 : leaf_id ≠ pid := Ne.symm hpidne
    have p3 : pid ≠ next := by omega
    have p4 : next ≠ pid := by omega
    rcases hnext : (s leaf_id).next with _ | nid
    · simp only [splitAndInsertLeaf, insertIntoParent, BTreePage.insert_key_value,
        BTreePage.split_leaf, BTreePage.insert_pairs, BTreePage.init,
        BTreePage.insert_keys_children, hpar, hnext, Function.update_apply]
      simp only [ne_eq, e1, e2, e3, e4, e5, e6, p1, p2, p3, p4,
        not_false_eq_true, if_false, if_true, ite_false, ite_true]
      simp only [hof, if_false, ite_false]
      refine ⟨_, rfl, ?_, ?_, ?_, ?_, ?_, ?_, ?_, ?_, ?_, ?_, ?_⟩
      · simp [Function.update_apply, e1, e2, e3, e4, e5, e6, p1, p2, p3, p4, BTreePage.insert_key_value, BTreePage.split_leaf, BTreePage.insert_pairs,
      BTreePage.init, BTreePage.insert_keys_children, BTreePage.insert_key_child]
      · simp [Function.update_apply, e1, e2, e3, e4, e5, e6, p1, p2, p3, p4, BTreePage.insert_key_value, BTreePage.split_leaf, BTreePage.insert_pairs,
      BTreePage.init, BTreePage.insert_keys_children, BTreePage.insert_key_child]
      · simp [Function.update_apply, e1, e2, e3, e4, e5, e6, p1, p2, p3, p4, BTreePage.insert_key_value, BTreePage.split_leaf, BTreePage.insert_pairs,
      BTreePage.init, BTreePage.insert_keys_children, BTreePage.insert_key_child]
      · simp [Function.update_apply, e1, e2, e3, e4, e5, e6, p1, p2, p3, p4, BTreePage.insert_key_value, BTreePage.split_leaf, BTreePage.insert_pairs,
      BTreePage.init, BTreePage.insert_keys_children, BTreePage.insert_key_child]
      · simp only [Function.update_apply]
        simp [e1, e2, e3, e4, e5, e6, p1, p2, p3, p4, BTreePage.insert_key_value, BTreePage.split_leaf, BTreePage.insert_pairs,
      BTreePage.init, BTreePage.insert_keys_children, BTreePage.insert_key_child]
        rw [List.map_fst_zip]
        simp only [List.length_drop, BTreePage.insert_key_value,
          List.length_append, List.length_take, List.length_cons] at hkl hvl ⊢
        omega
      · simp only [Function.update_apply]
        simp [e1, e2, e3, e4, e5, e6, p1, p2, p3, p4, BTreePage.insert_key_value, BTreePage.split_leaf, BTreePage.insert_pairs,
      BTreePage.init, BTreePage.insert_keys_children, BTreePage.insert_key_child]
        rw [List.map_snd_zip]
        simp only [List.length_drop, BTreePage.insert_key_value,
          List.length_append, List.length_take, List.length_cons] at hkl hvl ⊢
        omega
      · simp [Function.update_apply, e1, e2, e3, e4, e5, e6, p1, p2, p3, p4, BTreePage.insert_key_value, BTreePage.split_leaf, BTreePage.insert_pairs,
      BTreePage.init, BTreePage.insert_keys_children, BTreePage.insert_key_child]
      · simp [Function.update_apply, e1, e2, e3, e4, e5, e6, p1, p2, p3, p4, hnext, BTreePage.insert_key_value, BTreePage.split_leaf, BTreePage.insert_pairs,
      BTreePage.init, BTreePage.insert_keys_children, BTreePage.insert_key_child]
      · simp [Function.update_apply, e1, e2, e3, e4, e5, e6, p1, p2, p3, p4, hpar, BTreePage.insert_key_value, BTreePage.split_leaf, BTreePage.insert_pairs,
      BTreePage.init, BTreePage.insert_keys_children, BTreePage.insert_key_child]
      · intro nid hn
        simp at hn
      · simp [Function.update_apply, e1, e2, e3, e4, e5, e6, p1, p2, p3, p4, BTreePage.insert_key_value, BTreePage.split_leaf, BTreePage.insert_pairs,
      BTreePage.init, BTreePage.insert_keys_children, BTreePage.insert_key_child]
    · obtain ⟨hn1, hn2⟩ := hsib nid hnext
      have e7 : nid ≠ leaf_id := hn2
      have e8 : leaf_id ≠ nid := Ne.symm hn2
      have e9 : nid ≠ next := by omega
      have e10 : next ≠ nid := by omega
      have p5 : pid ≠ nid := hpidnid nid hnext
      have p6 : nid ≠ pid := Ne.symm p5
      simp only [splitAndInsertLeaf, insertIntoParent, BTreePage.insert_key_value,
        BTreePage.split_leaf, BTreePage.insert_pairs, BTreePage.init,
        BTreePage.insert_keys_children, hpar, hnext, Function.update_apply]
      simp only [ne_eq, e1, e2, e3, e4, e5, e6, e7, e8, e9, e10, p1, p2, p3, p4,
        p5, p6, not_false_eq_true, if_false, if_true, ite_false, ite_true]
      simp only [hof, if_false, ite_false]
      refine ⟨_, rfl, ?_, ?_, ?_, ?_, ?_, ?_, ?_, ?_, ?_, ?_, ?_⟩
      · simp [Function.update_apply, e1, e2, e3, e4, e5, e6, p1, p2, p3, p4, e7, e8, e9, e10, p5, p6, BTreePage.insert_key_value, BTreePage.split_leaf, BTreePage.insert_pairs,
      BTreePage.init, BTreePage.insert_keys_children, BTreePage.insert_key_child]
      · simp [Function.update_apply, e1, e2, e3, e4, e5, e6, p1, p2, p3, p4, e7, e8, e9, e10, p5, p6, BTreePage.insert_key_value, BTreePage.split_leaf, BTreePage.insert_pairs,
      BTreePage.init, BTreePage.insert_keys_children, BTreePage.insert_key_child]
      · simp [Function.update_apply, e1, e2, e3, e4, e5, e6, p1, p2, p3, p4, e7, e8, e9, e10, p5, p6, BTreePage.insert_key_value, BTreePage.split_leaf, BTreePage.insert_pairs,
      BTreePage.init, BTreePage.insert_keys_children, BTreePage.insert_key_child]
      · simp [Function.update_apply, e1, e2, e3, e4, e5, e6, p1, p2, p3, p4, e7, e8, e9, e10, p5, p6, BTreePage.insert_key_value, BTreePage.split_leaf, BTreePage.insert_pairs,
      BTreePage.init, BTreePage.insert_keys_children, BTreePage.insert_key_child]
      · simp only [Function.update_apply]
        simp [e1, e2, e3, e4, e5, e6, p1, p2, p3, p4, e7, e8, e9, e10, p5, p6, BTreePage.insert_key_value, BTreePage.split_leaf, BTreePage.insert_pairs,
      BTreePage.init, BTreePage.insert_keys_children, BTreePage.insert_key_child]
        rw [List.map_fst_zip]
        simp only [List.length_drop, BTreePage.insert_key_value,
          List.length_append, List.length_take, List.length_cons] at hkl hvl ⊢
        omega
      · simp only [Function.update_apply]
        simp [e1, e2, e3, e4, e5, e6, p1, p2, p3, p4, e7, e8, e9, e10, p5, p6, BTreePage.insert_key_value, BTreePage.split_leaf, BTreePage.insert_pairs,
      BTreePage.init, BTreePage.insert_keys_children, BTreePage.insert_key_child]
        rw [List.map_snd_zip]
        simp only [List.length_drop, BTreePage.insert_key_value,
          List.length_append, List.length_take, List.length_cons] at hkl hvl ⊢
        omega
      · simp [Function.update_apply, e1, e2, e3, e4, e5, e6, p1, p2, p3, p4, e7, e8, e9, e10, p5, p6, BTreePage.insert_key_value, BTreePage.split_leaf, BTreePage.insert_pairs,
      BTreePage.init, BTreePage.insert_keys_children, BTreePage.insert_key_child]
      · simp [Function.update_apply, e1, e2, e3, e4, e5, e6, p1, p2, p3, p4, e7, e8, e9, e10, p5, p6, hnext, BTreePage.insert_key_value, BTreePage.split_leaf, BTreePage.insert_pairs,
      BTreePage.init, BTreePage.insert_keys_children, BTreePage.insert_key_child]
      · simp [Function.update_apply, e1, e2, e3, e4, e5, e6, p1, p2, p3, p4, e7, e8, e9, e10, p5, p6, hpar, BTreePage.insert_key_value, BTreePage.split_leaf, BTreePage.insert_pairs,
      BTreePage.init, BTreePage.insert_keys_children, BTreePage.insert_key_child]
      · intro nid2 hn2x
        injection hn2x with hn2x
        subst hn2x
        simp [Function.update_apply, e1, e2, e3, e4, e5, e6, p1, p2, p3, p4, e7, e8, e9, e10, p5, p6, BTreePage.insert_key_value, BTreePage.split_leaf, BTreePage.insert_pairs,
      BTreePage.init, BTreePage.insert_keys_children, BTreePage.insert_key_child]
      · simp [Function.update_apply, e1, e2, e3, e4, e5, e6, p1, p2, p3, p4, e7, e8, e9, e10, p5, p6, BTreePage.insert_key_value, BTreePage.split_leaf, BTreePage.insert_pairs,
      BTreePage.init, BTreePage.insert_keys_children, BTreePage.insert_key_child]


/-- Concrete full leaf used to witness the split theorem. -/
def c3page : BTreePage :=
  { page_id := 0, is_leaf := true, keys := List.range 128,
    vals := (List.range 128).map (fun i => RecordId.mk i 0),
    children := [], next := none, prev := none, parent := none }

/-- Concrete store: every page id holds the full leaf. -/
def c3store : Store := fun _ => c3page

theorem split_and_insert_leaf_spec_witness :
    DEFAULT_BTREE_ORDER ≤ (c3store 0).keys.length ∧
    (((c3store 0).parent = none →
      ∃ s', splitAndInsertLeaf c3store 1 0 0 200 (RecordId.mk 7 7) 1 =
          some (s', 3, 2) ∧
        (s' 0).keys = ((c3store 0).insert_key_value 200 (RecordId.mk 7 7)).keys.take (((c3store 0).insert_key_value 200 (RecordId.mk 7 7)).keys.length / 2) ∧
        (s' 0).vals = ((c3store 0).insert_key_value 200 (RecordId.mk 7 7)).vals.take (((c3store 0).insert_key_value 200 (RecordId.mk 7 7)).keys.length / 2) ∧
        (s' 0).next = some 1 ∧
        (s' 0).parent = some 2 ∧
        (s' 1).is_leaf = true ∧
        (s' 1).keys = ((c3store 0).insert_key_value 200 (RecordId.mk 7 7)).keys.drop (((c3store 0).insert_key_value 200 (RecordId.mk 7 7)).keys.length / 2) ∧
        (s' 1).vals = ((c3store 0).insert_key_value 200 (RecordId.mk 7 7)).vals.drop (((c3store 0).insert_key_value 200 (RecordId.mk 7 7)).keys.length / 2) ∧
        (s' 1).prev = some 0 ∧
        (s' 1).next = (c3store 0).next ∧
        (s' 1).parent = some 2 ∧
        (s' 2).is_leaf = false ∧
        (s' 2).keys = [(((c3store 0).insert_key_value 200 (RecordId.mk 7 7)).keys.getD (((c3store 0).insert_key_value 200 (RecordId.mk 7 7)).keys.length / 2) 0)] ∧
        (s' 2).children = [0, 1] ∧
        (∀ nid, (c3store 0).next = some nid → (s' nid).prev = some 1)) ∧
    (∀ pid, (c3store 0).parent = some pid → pid < 1 → pid ≠ 0 →
      (∀ nid, (c3store 0).next = some nid → pid ≠ nid) →
      (c3store pid).keys.length < DEFAULT_BTREE_ORDER →
      ∃ s', splitAndInsertLeaf c3store 1 0 0 200 (RecordId.mk 7 7) 1 =
          some (s', 2, 0) ∧
        (s' 0).keys = ((c3store 0).insert_key_value 200 (RecordId.mk 7 7)).keys.take (((c3store 0).insert_key_value 200 (RecordId.mk 7 7)).keys.length / 2) ∧
        (s' 0).vals = ((c3store 0).insert_key_value 200 (RecordId.mk 7 7)).vals.take (((c3store 0).insert_key_value 200 (RecordId.mk 7 7)).keys.length / 2) ∧
        (s' 0).next = some 1 ∧
        (s' 1).is_leaf = true ∧
        (s' 1).keys = ((c3store 0).insert_key_value 200 (RecordId.mk 7 7)).keys.drop (((c3store 0).insert_key_value 200 (RecordId.mk 7 7)).keys.length / 2) ∧
        (s' 1).vals = ((c3store 0).insert_key_value 200 (RecordId.mk 7 7)).vals.drop (((c3store 0).insert_key_value 200 (RecordId.mk 7 7)).keys.length / 2) ∧
        (s' 1).prev = some 0 ∧
        (s' 1).next = (c3store 0).next ∧
        (s' 1).parent = some pid ∧
        (∀ nid, (c3store 0).next = some nid → (s' nid).prev = some 1) ∧
        s' pid = (c3store pid).insert_key_child (((c3store 0).insert_key_value 200 (RecordId.mk 7 7)).keys.getD (((c3store 0).insert_key_value 200 (RecordId.mk 7 7)).keys.length / 2) 0) 1)) :=
  ⟨by decide,
    split_and_insert_leaf_spec c3store 1 0 0 200 (RecordId.mk 7 7) 1
      (by decide) (by decide) (by decide) (by decide)
      (fun nid h => Option.noConfusion h) (by decide)⟩

/-! ## Buffer pool manager (src/buffer/buffer_pool_manager.rs,
src/buffer/frame_header.rs, src/storage/disk/disk_manager.rs)

Frames form a list indexed by frame id; the page table and the
replacer's map are association lists; the disk-manager state keeps the
page images, the I/O counters and the log of requested deallocations.
`FrameHeader`'s constant `frame_id` field is the list position. -/

def INVALID_PAGE_ID : Nat := 4294967295

/-- `FrameHeader`: page id, pin count, dirty flag and the page bytes. -/
structure FrameHeader where
  page_id : Nat
  pin_count : Nat
  is_dirty : Bool
  data : Nat → Nat

/-- `FrameHeader::new`, which is also the state `FrameHeader::reset`
restores. -/
def FrameHeader.init : FrameHeader :=
  { page_id := INVALID_PAGE_ID, pin_count := 0, is_dirty := false,
    data := fun _ => 0 }

/-- `self.state.frames[fid]` (an out-of-range read, which the source
never performs, gives the reset frame). -/
def frameAt (frames : List FrameHeader) (fid : Nat) : FrameHeader :=
  (frames.get? fid).getD FrameHeader.init

/-- Disk-manager state: page images, the I/O counters and the pages
whose deallocation was requested. -/
structure DiskState where
  pages : Nat → (Nat → Nat)
  num_writes : Nat
  num_reads : Nat
  deallocated : List Nat

/-- `DiskManager::write_page`: one counter bump per call. -/
def DiskState.write_page (d : DiskState) (pid : Nat) (bytes : Nat → Nat) : DiskState :=
  { d with pages := Function.update d.pages pid bytes,
           num_writes := d.num_writes + 1 }

/-- `DiskManager::write_pages`: the bulk buffer holds the images of the
consecutive pages written; one counter bump for the whole call. -/
def DiskState.write_pages (d : DiskState) (ws : List (Nat × (Nat → Nat))) : DiskState :=
  { d with pages := ws.foldl (fun ps w => Function.update ps w.1 w.2) d.pages,
           num_writes := d.num_writes + 1 }

/-- `DiskManager::read_pages` as seen by the buffer pool: one read. -/
def DiskState.read_pages (d : DiskState) : DiskState :=
  { d with num_reads := d.num_reads + 1 }

/-- `DiskManager::deallocate_page`: the request is logged. -/
def DiskState.deallocate (d : DiskState) (pid : Nat) : DiskState :=
  { d with deallocated := d.deallocated ++ [pid] }

/-- `BufferPoolState` + the disk manager behind the scheduler. -/
structure BufferPoolManager where
  frames : List FrameHeader
  page_table : List (Nat × Nat)
  free_list : List Nat
  replacer : LruKReplacer
  disk : DiskState

/-- `BufferPoolManager::get_free_frame`: pop the free list; otherwise
evict (flushing the victim if dirty, dropping it from the page table
and resetting its frame); `BufferPoolFull` when eviction fails. -/
def getFreeFrame (bp : BufferPoolManager) : Except CrioErr (Nat × BufferPoolManager) :=
  match bp.free_list with
  | frame_id :: rest => .ok (frame_id, { bp with free_list := rest })
  | [] =>
    match bp.replacer.evict with
    | (some frame_id, r') =>
      let frame := frameAt bp.frames frame_id
      let d' := if frame.is_dirty then bp.disk.write_page frame.page_id frame.data
        else bp.disk
      .ok (frame_id, { bp with
        replacer := r',
        page_table := bp.page_table.eraseP (fun e => e.1 == frame.page_id),
        frames := bp.frames.set frame_id FrameHeader.init,
        disk := d' })
    | (none, _) => .error CrioErr.BufferPoolFull

/-- The free-frame gathering loop of `prefetch_pages` (one
`get_free_frame` attempt per wanted page, stopping at the first
failure). -/
def collectFreeFrames : Nat → BufferPoolManager → List Nat × BufferPoolManager
  | 0, bp => ([], bp)
  | n + 1, bp =>
    match getFreeFrame bp with
    | .ok (fid, bp') =>
      let pr := collectFreeFrames n bp'
      (fid :: pr.1, pr.2)
    | .error _ => ([], bp)

/-- One iteration of the distribution loop of `prefetch_pages`: the
frame receives the page image (non-dirty, pins untouched), the page
table entry is set, the access is recorded and the frame marked
evictable. -/
def prefetchOne (bp : BufferPoolManager) (page_id frame_id : Nat) : BufferPoolManager :=
  { bp with
    frames := bp.frames.set frame_id
      { frameAt bp.frames frame_id with
        page_id := page_id, data := bp.disk.pages page_id, is_dirty := false },
    page_table := upsertList bp.page_table page_id frame_id,
    replacer := (bp.replacer.record_access frame_id).set_evictable frame_id true }

/-- `BufferPoolManager::prefetch_pages`. -/
def prefetchPages (bp : BufferPoolManager) (start_page_id num_pages : Nat) :
    Nat × BufferPoolManager :=
  if num_pages = 0 then (0, bp)
  else
    let pages_to_fetch := ((List.range num_pages).map (fun i => start_page_id + i)).filter
      (fun pid => (bp.page_table.lookup pid).isNone)
    if pages_to_fetch.isEmpty then (0, bp)
    else
      let cf := collectFreeFrames pages_to_fetch.length bp
      if cf.1.isEmpty then (0, cf.2)
      else
        let pages := pages_to_fetch.take cf.1.length
        let bp1 := { cf.2 with disk := cf.2.disk.read_pages }
        let bp2 := (pages.zip cf.1).foldl (fun b pf => prefetchOne b pf.1 pf.2) bp1
        (pages.length, bp2)

/-- `BufferPoolManager::delete_page` (the result together with the
state, whose mutations survive an error return). -/
def deletePage (bp : BufferPoolManager) (page_id : Nat) :
    Except CrioErr Bool × BufferPoolManager :=
  match bp.page_table.lookup page_id with
  | some frame_id =>
    let pt0 := bp.page_table.eraseP (fun e => e.1 == page_id)
    if 0 < (frameAt bp.frames frame_id).pin_count then
      (.error (CrioErr.PageStillPinned page_id),
        { bp with page_table := upsertList pt0 page_id frame_id })
    else
      (.ok true,
        { bp with
          page_table := pt0,
          frames := bp.frames.set frame_id FrameHeader.init,
          replacer := bp.replacer.remove frame_id,
          free_list := bp.free_list ++ [frame_id],
          disk := bp.disk.deallocate page_id })
  | none => (.ok false, bp)

/-- Insertion step of `dirty_pages.sort_by_key(pid)`. -/
def insertSorted (e : Nat × Nat) : List (Nat × Nat) → List (Nat × Nat)
  | [] => [e]
  | x :: xs => if e.1 ≤ x.1 then e :: x :: xs else x :: insertSorted e xs

/-- `dirty_pages.sort_by_key(pid)` (insertion sort). -/
def sortByPid (l : List (Nat × Nat)) : List (Nat × Nat) := l.foldr insertSorted []

/-- The run-coalescing scan of `flush_all_pages`: the maximal prefix of
consecutive page ids starting at `p`, and the remainder. -/
def splitRun : Nat × Nat → List (Nat × Nat) → List (Nat × Nat) × List (Nat × Nat)
  | p, [] => ([p], [])
  | p, q :: rest =>
    if q.1 = p.1 + 1 then
      let pr := splitRun q rest
      (p :: pr.1, pr.2)
    else ([p], q :: rest)

/-- The page images a run's bulk write carries. -/
def runWrites (frames : List FrameHeader) (run : List (Nat × Nat)) :
    List (Nat × (Nat → Nat)) :=
  run.map (fun pf => (pf.1, (frameAt frames pf.2).data))

/-- Clearing the dirty flags of a run's frames. -/
def clearRun (run : List (Nat × Nat)) (frames : List FrameHeader) : List FrameHeader :=
  run.foldl (fun fr pf =>
    fr.set pf.2 { frameAt fr pf.2 with is_dirty := false }) frames

theorem splitRun_rest_length (p : Nat × Nat) (l : List (Nat × Nat)) :
    (splitRun p l).2.length ≤ l.length := by
  induction l generalizing p with
  | nil => simp [splitRun]
  | cons q rest ih =>
    rw [splitRun]
    by_cases h : q.1 = p.1 + 1
    · simpa [h] using Nat.le_succ_of_le (ih q)
    · simp [h]

theorem splitRun_append (p : Nat × Nat) (l : List (Nat × Nat)) :
    (splitRun p l).1 ++ (splitRun p l).2 = p :: l := by
  induction l generalizing p with
  | nil => simp [splitRun]
  | cons q rest ih =>
    rw [splitRun]
    by_cases h : q.1 = p.1 + 1
    · simpa [h] using ih q
    · simp [h]

/-- The write loop of `flush_all_pages` over the sorted dirty list: one
disk write per run, then the run's dirty flags are cleared. -/
def flushLoop : List (Nat × Nat) → List FrameHeader → DiskState →
    List FrameHeader × DiskState
  | [], frames, d => (frames, d)
  | p :: rest, frames, d =>
    let pr := splitRun p rest
    let d' := if pr.1.length = 1 then d.write_page p.1 (frameAt frames p.2).data
      else d.write_pages (runWrites frames pr.1)
    flushLoop pr.2 (clearRun pr.1 frames) d'
termination_by l => l.length
decreasing_by
  have := splitRun_rest_length p rest
  simp only [List.length_cons]
  omega

/-- `BufferPoolManager::flush_all_pages`. -/
def flushAllPages (bp : BufferPoolManager) : BufferPoolManager :=
  let dirty_pages := bp.page_table.filter (fun e => (frameAt bp.frames e.2).is_dirty)
  if dirty_pages.isEmpty then bp
  else
    let fd := flushLoop (sortByPid dirty_pages) bp.frames bp.disk
    { bp with frames := fd.1, disk := fd.2 }

theorem frameAt_set_ne (fr : List FrameHeader) (i j : Nat) (x : FrameHeader)
    (h : j ≠ i) : frameAt (fr.set i x) j = frameAt fr j := by
  unfold frameAt
  rw [get?_set_ne fr i j x (Ne.symm h)]

theorem frameAt_set_self (fr : List FrameHeader) (i : Nat) (x : FrameHeader)
    (h : i < fr.length) : frameAt (fr.set i x) i = x := by
  unfold frameAt
  rw [get?_set_self fr i x h]
  rfl

theorem frameAt_oob (fr : List FrameHeader) (i : Nat) (h : fr.length ≤ i) :
    frameAt fr i = FrameHeader.init := by
  unfold frameAt
  rw [List.get?_eq_none.mpr h]
  rfl

theorem frameAt_clear_step (fr : List FrameHeader) (i fid : Nat) :
    (frameAt (fr.set i { frameAt fr i with is_dirty := false }) fid).is_dirty = true →
    (frameAt fr fid).is_dirty = true := by
  by_cases hf : fid = i
  · subst hf
    by_cases hlen : fid < fr.length
    · rw [frameAt_set_self fr _ _ hlen]
      intro h
      cases h
    · have hlen2 : (fr.set fid { frameAt fr fid with is_dirty := false }).length ≤
          fid := by
        rw [List.length_set]
        omega
      rw [frameAt_oob _ _ hlen2]
      intro h
      cases h
  · rw [frameAt_set_ne fr i fid _ hf]
    exact id

theorem clearRun_dirty_mono (run : List (Nat × Nat)) :
    ∀ (fr : List FrameHeader) (fid : Nat),
      (frameAt (clearRun run fr) fid).is_dirty = true →
      (frameAt fr fid).is_dirty = true := by
  induction run with
  | nil => intro fr fid h; simpa [clearRun] using h
  | cons pf rest ih =>
    intro fr fid h
    have h' : (frameAt (clearRun rest
        (fr.set pf.2 { frameAt fr pf.2 with is_dirty := false })) fid).is_dirty = true := by
      simpa [clearRun] using h
    exact frameAt_clear_step fr pf.2 fid (ih _ fid h')

theorem clearRun_clears (run : List (Nat × Nat)) :
    ∀ (fr : List FrameHeader) (fid : Nat), fid ∈ run.map Prod.snd →
      (frameAt (clearRun run fr) fid).is_dirty = false := by
  induction run with
  | nil => intro fr fid h; cases h
  | cons pf rest ih =>
    intro fr fid hmem
    have hcl : clearRun (pf :: rest) fr =
        clearRun rest (fr.set pf.2 { frameAt fr pf.2 with is_dirty := false }) := by
      simp [clearRun]
    rw [hcl]
    rcases List.mem_cons.mp hmem with heq | hmem2
    · subst heq
      have hfr' : (frameAt (fr.set pf.2 { frameAt fr pf.2 with is_dirty := false })
          pf.2).is_dirty = false := by
        by_cases hlen : pf.2 < fr.length
        · rw [frameAt_set_self fr _ _ hlen]
        · have hlen2 : (fr.set pf.2 { frameAt fr pf.2 with is_dirty := false }).length ≤
              pf.2 := by
            rw [List.length_set]
            omega
          rw [frameAt_oob _ _ hlen2]
          rfl
      cases hres : (frameAt (clearRun rest
          (fr.set pf.2 { frameAt fr pf.2 with is_dirty := false })) pf.2).is_dirty
      · rfl
      · have := clearRun_dirty_mono rest _ pf.2 hres
        rw [hfr'] at this
        cases this
    · exact ih _ fid hmem2

theorem flushLoop_dirty_mono (l : List (Nat × Nat)) (frames : List FrameHeader)
    (d : DiskState) :
    ∀ fid, (frameAt (flushLoop l frames d).1 fid).is_dirty = true →
      (frameAt frames fid).is_dirty = true := by
  induction l, frames, d using flushLoop.induct with
  | case1 frames d =>
    intro fid h
    simpa [flushLoop] using h
  | case2 p rest frames d pr d' ih =>
    intro fid h
    unfold_let d' pr at ih
    simp only [dite_eq_ite] at ih
    rw [flushLoop] at h
    exact clearRun_dirty_mono (splitRun p rest).1 frames fid (ih fid h)

theorem flushLoop_clears (l : List (Nat × Nat)) (frames : List FrameHeader)
    (d : DiskState) :
    ∀ fid ∈ l.map Prod.snd,
      (frameAt (flushLoop l frames d).1 fid).is_dirty = false := by
  induction l, frames, d using flushLoop.induct with
  | case1 frames d =>
    intro fid h
    cases h
  | case2 p rest frames d pr d' ih =>
    intro fid hmem
    unfold_let d' pr at ih
    simp only [dite_eq_ite] at ih
    have hsnds : ((splitRun p rest).1 ++ (splitRun p rest).2).map Prod.snd =
        (p :: rest).map Prod.snd := by
      rw [splitRun_append]
    rw [flushLoop]
    have hmem2 : fid ∈ (splitRun p rest).1.map Prod.snd ∨
        fid ∈ (splitRun p rest).2.map Prod.snd := by
      rw [← List.mem_append, ← List.map_append, hsnds]
      exact hmem
    rcases hmem2 with hrun | hrest
    · have hfr : (frameAt (clearRun (splitRun p rest).1 frames) fid).is_dirty = false :=
        clearRun_clears (splitRun p rest).1 frames fid hrun
      apply Bool.eq_false_iff.mpr
      intro hres
      have hmono := flushLoop_dirty_mono _ _ _ fid hres
      rw [hfr] at hmono
      cases hmono
    · exact ih fid hrest

theorem mem_insertSorted (e x : Nat × Nat) (l : List (Nat × Nat)) :
    x ∈ insertSorted e l ↔ x = e ∨ x ∈ l := by
  induction l with
  | nil => simp [insertSorted]
  | cons y ys ih =>
    rw [insertSorted]
    by_cases h : e.1 ≤ y.1
    · simp [h]
    · simp only [if_neg h, List.mem_cons, ih]
      tauto

theorem mem_sortByPid (l : List (Nat × Nat)) (x : Nat × Nat) :
    x ∈ sortByPid l ↔ x ∈ l := by
  induction l with
  | nil => simp [sortByPid]
  | cons y ys ih =>
    rw [sortByPid, List.foldr_cons, mem_insertSorted]
    rw [sortByPid] at ih
    rw [ih]
    simp

theorem flushAllPages_page_table (bp : BufferPoolManager) :
    (flushAllPages bp).page_table = bp.page_table := by
  simp only [flushAllPages]
  split <;> rfl

theorem flushAllPages_clean (bp : BufferPoolManager)
    (h : (bp.page_table.filter
      (fun e => (frameAt bp.frames e.2).is_dirty)).isEmpty = true) :
    flushAllPages bp = bp := by
  simp only [flushAllPages]
  rw [if_pos h]

/-- **C6.** After `flush_all_pages` no resident frame is dirty, flushing
again is the identity on the pool state, and in particular the second
flush performs no disk write: the write counter is unchanged. -/
theorem flush_all_pages_spec (bp : BufferPoolManager) :
    (flushAllPages bp).page_table = bp.page_table ∧
    (∀ e ∈ bp.page_table,
      (frameAt (flushAllPages bp).frames e.2).is_dirty = false) ∧
    flushAllPages (flushAllPages bp) = flushAllPages bp ∧
    (flushAllPages (flushAllPages bp)).disk.num_writes =
      (flushAllPages bp).disk.num_writes := by
  have h2 : ∀ e ∈ bp.page_table,
      (frameAt (flushAllPages bp).frames e.2).is_dirty = false := by
    intro e he
    by_cases hemp : (bp.page_table.filter
        (fun e => (frameAt bp.frames e.2).is_dirty)).isEmpty = true
    · rw [flushAllPages_clean bp hemp]
      have hnil : bp.page_table.filter
          (fun e => (frameAt bp.frames e.2).is_dirty) = [] := by
        simpa [List.isEmpty_iff] using hemp
      have := List.filter_eq_nil.mp hnil e he
      simpa using this
    · have hB : (flushAllPages bp).frames =
          (flushLoop (sortByPid (bp.page_table.filter
            (fun e => (frameAt bp.frames e.2).is_dirty))) bp.frames bp.disk).1 := by
        simp only [flushAllPages]
        rw [if_neg hemp]
      rw [hB]
      by_cases hd : (frameAt bp.frames e.2).is_dirty = true
      · have hf : e ∈ bp.page_table.filter
            (fun e => (frameAt bp.frames e.2).is_dirty) :=
          List.mem_filter.mpr ⟨he, hd⟩
        have hs : e ∈ sortByPid (bp.page_table.filter
            (fun e => (frameAt bp.frames e.2).is_dirty)) :=
          (mem_sortByPid _ _).mpr hf
        exact flushLoop_clears _ _ _ e.2 (List.mem_map_of_mem _ hs)
      · cases hres : (frameAt (flushLoop (sortByPid (bp.page_table.filter
            (fun e => (frameAt bp.frames e.2).is_dirty))) bp.frames bp.disk).1
            e.2).is_dirty
        · rfl
        · exact absurd (flushLoop_dirty_mono _ _ _ e.2 hres) hd
  have h3 : flushAllPages (flushAllPages bp) = flushAllPages bp := by
    apply flushAllPages_clean
    rw [flushAllPages_page_table]
    have hnil : bp.page_table.filter
        (fun e => (frameAt (flushAllPages bp).frames e.2).is_dirty) = [] :=
      List.filter_eq_nil.mpr (fun a ha => by rw [h2 a ha]; simp)
    rw [hnil]
    rfl
  exact ⟨flushAllPages_page_table bp, h2, h3, by rw [h3]⟩

theorem lookup_eq_none_iff {β : Type} (l : List (Nat × β)) (k : Nat) :
    List.lookup k l = none ↔ k ∉ l.map Prod.fst := by
  induction l with
  | nil => simp
  | cons hd tl ih =>
    obtain ⟨a, b⟩ := hd
    rw [List.lookup_cons]
    by_cases h : k = a
    · subst h
      simp
    · simp [beq_eq_false_iff_ne.mpr h, h, ih]

theorem lookup_eraseP_ne {β : Type} (l : List (Nat × β)) (k q : Nat) (h : q ≠ k) :
    List.lookup q (l.eraseP (fun e => e.1 == k)) = List.lookup q l := by
  induction l with
  | nil => rfl
  | cons hd tl ih =>
    obtain ⟨a, b⟩ := hd
    by_cases hk : a = k
    · subst hk
      simp [List.eraseP_cons, List.lookup_cons, beq_eq_false_iff_ne.mpr h]
    · simp [List.eraseP_cons, beq_eq_false_iff_ne.mpr hk, List.lookup_cons, ih]

theorem lookup_eraseP_self {β : Type} (l : List (Nat × β)) (k : Nat)
    (hnd : (l.map Prod.fst).Nodup) :
    List.lookup k (l.eraseP (fun e => e.1 == k)) = none := by
  induction l with
  | nil => rfl
  | cons hd tl ih =>
    obtain ⟨a, b⟩ := hd
    rw [List.map_cons, List.nodup_cons] at hnd
    by_cases hk : a = k
    · subst hk
      simp only [List.eraseP_cons, Prod.fst, beq_self_eq_true, cond_true]
      exact (lookup_eq_none_iff tl a).mpr hnd.1
    · simp only [List.eraseP_cons, beq_eq_false_iff_ne.mpr hk, cond_false,
        List.lookup_cons, beq_eq_false_iff_ne.mpr (fun hq => hk hq.symm)]
      exact ih hnd.2

theorem lookup_mapIf_ne {β : Type} (l : List (Nat × β)) (k q : Nat)
    (g : Nat × β → Nat × β) (hg : ∀ p : Nat × β, p.1 = k → (g p).1 = k)
    (h : q ≠ k) :
    List.lookup q (l.map (fun p => if p.1 = k then g p else p)) = List.lookup q l := by
  induction l with
  | nil => rfl
  | cons hd tl ih =>
    obtain ⟨a, b⟩ := hd
    rw [List.map_cons]
    by_cases hk : a = k
    · rw [if_pos hk]
      rcases hG : g (a, b) with ⟨ga, gb⟩
      have hga : ga = k := by
        have := hg (a, b) hk
        rw [hG] at this
        exact this
      rw [List.lookup_cons, List.lookup_cons]
      rw [show (q == ga) = false from beq_eq_false_iff_ne.mpr (hga ▸ h),
        show (q == a) = false from beq_eq_false_iff_ne.mpr (hk ▸ h)]
      exact ih
    · rw [if_neg hk, List.lookup_cons, List.lookup_cons]
      by_cases hq : q = a
      · simp [hq]
      · rw [beq_eq_false_iff_ne.mpr hq]
        simpa using ih

theorem lookup_mapIf_self {β : Type} (l : List (Nat × β)) (k : Nat) (v : β)
    (g : Nat × β → Nat × β) (hg : ∀ p : Nat × β, p.1 = k → (g p).1 = k)
    (hl : List.lookup k l = some v) :
    List.lookup k (l.map (fun p => if p.1 = k then g p else p)) = some (g (k, v)).2 := by
  induction l with
  | nil => cases hl
  | cons hd tl ih =>
    obtain ⟨a, b⟩ := hd
    rw [List.map_cons]
    by_cases hk : a = k
    · subst hk
      rw [List.lookup_cons_self] at hl
      injection hl with hl
      subst hl
      rw [if_pos rfl]
      rcases hG : g (a, b) with ⟨ga, gb⟩
      have hga : ga = a := by
        have := hg (a, b) rfl
        rw [hG] at this
        exact this
      subst hga
      rw [List.lookup_cons_self]
    · rw [if_neg hk, List.lookup_cons]
      rw [List.lookup_cons, beq_eq_false_iff_ne.mpr (fun hq => hk hq.symm)] at hl
      rw [beq_eq_false_iff_ne.mpr (fun hq => hk hq.symm)]
      exact ih hl

theorem lookup_upsert_ne {β : Type} (l : List (Nat × β)) (k q : Nat) (v : β)
    (h : q ≠ k) : List.lookup q (upsertList l k v) = List.lookup q l := by
  rw [upsertList]
  rcases hl : List.lookup k l with _ | old
  · rw [List.lookup_append]
    simp only [List.lookup_cons, beq_eq_false_iff_ne.mpr h, List.lookup_nil]
    cases List.lookup q l <;> rfl
  · exact lookup_mapIf_ne l k q (fun _ => (k, v)) (fun _ _ => rfl) h

/-- **C7.** `delete_page` on a pinned resident page returns
`PageStillPinned` and leaves the pool observationally unchanged; on an
unpinned resident page it resets the frame, removes the page from the
replacer and the page table, appends the frame to the free list and
requests disk deallocation (writing nothing). -/
theorem delete_page_spec (bp : BufferPoolManager) (page_id : Nat)
    (hnd : (bp.page_table.map Prod.fst).Nodup) :
    (∀ frame_id, List.lookup page_id bp.page_table = some frame_id →
      0 < (frameAt bp.frames frame_id).pin_count →
      (deletePage bp page_id).1 = .error (CrioErr.PageStillPinned page_id) ∧
      (∀ q, List.lookup q (deletePage bp page_id).2.page_table =
        List.lookup q bp.page_table) ∧
      (deletePage bp page_id).2.frames = bp.frames ∧
      (deletePage bp page_id).2.free_list = bp.free_list ∧
      (deletePage bp page_id).2.replacer = bp.replacer ∧
      (deletePage bp page_id).2.disk = bp.disk) ∧
    (∀ frame_id, List.lookup page_id bp.page_table = some frame_id →
      (frameAt bp.frames frame_id).pin_count = 0 →
      (deletePage bp page_id).1 = .ok true ∧
      (deletePage bp page_id).2.frames = bp.frames.set frame_id FrameHeader.init ∧
      List.lookup page_id (deletePage bp page_id).2.page_table = none ∧
      (∀ q, q ≠ page_id → List.lookup q (deletePage bp page_id).2.page_table =
        List.lookup q bp.page_table) ∧
      (deletePage bp page_id).2.replacer = bp.replacer.remove frame_id ∧
      (deletePage bp page_id).2.free_list = bp.free_list ++ [frame_id] ∧
      (deletePage bp page_id).2.disk.deallocated = bp.disk.deallocated ++ [page_id] ∧
      (deletePage bp page_id).2.disk.num_writes = bp.disk.num_writes) := by
  constructor
  · intro frame_id hl hpin
    have hres : deletePage bp page_id =
        (.error (CrioErr.PageStillPinned page_id),
         { bp with page_table := upsertList (bp.page_table.eraseP (fun e => e.1 == page_id)) page_id frame_id }) := by
      simp only [deletePage, hl]
      rw [if_pos hpin]
    refine ⟨by rw [hres], ?_, by rw [hres], by rw [hres], by rw [hres], by rw [hres]⟩
    intro q
    simp only [hres]
    by_cases hq : q = page_id
    · subst hq
      rw [lookup_upsert, hl]
    · rw [lookup_upsert_ne _ _ _ _ hq, lookup_eraseP_ne _ _ _ hq]
  · intro frame_id hl hpin
    have hres : deletePage bp page_id =
        (.ok true,
         { bp with
            page_table := bp.page_table.eraseP (fun e => e.1 == page_id),
            frames := bp.frames.set frame_id FrameHeader.init,
            replacer := bp.replacer.remove frame_id,
            free_list := bp.free_list ++ [frame_id],
            disk := bp.disk.deallocate page_id }) := by
      simp only [deletePage, hl]
      rw [if_neg (by omega)]
    refine ⟨by rw [hres], by rw [hres], ?_, ?_, by rw [hres],
      by rw [hres], by rw [hres]; rfl, by rw [hres]; rfl⟩
    · rw [hres]
      exact lookup_eraseP_self bp.page_table page_id hnd
    · intro q hq
      rw [hres]
      exact lookup_eraseP_ne bp.page_table page_id q hq

/-- Concrete pool used to witness the delete theorem: one resident
pinned page. -/
def c7frame : FrameHeader :=
  { page_id := 5, pin_count := 1, is_dirty := false, data := fun _ => 0 }

def c7rep : LruKReplacer :=
  { k := 2, max_frames := 1, current_timestamp := 1,
    frame_info := [(0, { history := [0], is_evictable := false })] }

def c7disk : DiskState :=
  { pages := fun _ => fun _ => 0, num_writes := 0, num_reads := 0,
    deallocated := [] }

def c7bp : BufferPoolManager :=
  { frames := [c7frame], page_table := [(5, 0)], free_list := [],
    replacer := c7rep, disk := c7disk }

theorem delete_page_spec_witness :
    (c7bp.page_table.map Prod.fst).Nodup ∧
    ((∀ frame_id, List.lookup 5 c7bp.page_table = some frame_id →
      0 < (frameAt c7bp.frames frame_id).pin_count →
      (deletePage c7bp 5).1 = .error (CrioErr.PageStillPinned 5) ∧
      (∀ q, List.lookup q (deletePage c7bp 5).2.page_table =
        List.lookup q c7bp.page_table) ∧
      (deletePage c7bp 5).2.frames = c7bp.frames ∧
      (deletePage c7bp 5).2.free_list = c7bp.free_list ∧
      (deletePage c7bp 5).2.replacer = c7bp.replacer ∧
      (deletePage c7bp 5).2.disk = c7bp.disk) ∧
    (∀ frame_id, List.lookup 5 c7bp.page_table = some frame_id →
      (frameAt c7bp.frames frame_id).pin_count = 0 →
      (deletePage c7bp 5).1 = .ok true ∧
      (deletePage c7bp 5).2.frames = c7bp.frames.set frame_id FrameHeader.init ∧
      List.lookup 5 (deletePage c7bp 5).2.page_table = none ∧
      (∀ q, q ≠ 5 → List.lookup q (deletePage c7bp 5).2.page_table =
        List.lookup q c7bp.page_table) ∧
      (deletePage c7bp 5).2.replacer = c7bp.replacer.remove frame_id ∧
      (deletePage c7bp 5).2.free_list = c7bp.free_list ++ [frame_id] ∧
      (deletePage c7bp 5).2.disk.deallocated = c7bp.disk.deallocated ++ [5] ∧
      (deletePage c7bp 5).2.disk.num_writes = c7bp.disk.num_writes)) :=
  ⟨by decide, delete_page_spec c7bp 5 (by decide)⟩

/-- Whether the replacer currently tracks `fid` as evictable. -/
def replacerEvictable (r : LruKReplacer) (fid : FrameId) : Bool :=
  match r.frame_info.lookup fid with
  | some info => info.is_evictable
  | none => false

/-- Concrete pool refuting the original C5 reading: one resident
evictable unpinned page, empty free list. -/
def c5frame : FrameHeader :=
  { page_id := 5, pin_count := 0, is_dirty := false, data := fun _ => 0 }

def c5rep : LruKReplacer :=
  { k := 2, max_frames := 1, current_timestamp := 1,
    frame_info := [(0, { history := [0], is_evictable := true })] }

def c5bp : BufferPoolManager :=
  { frames := [c5frame], page_table := [(5, 0)], free_list := [],
    replacer := c5rep, disk := c7disk }

/-- **C5, counterexample.** With an empty free list and one resident
evictable page (page 5 in frame 0), `prefetch_pages(9, 1)` evicts the
resident page 5 — it is gone from the page table afterwards — and still
loads 1 page even though the free list held 0 frames. -/
theorem prefetch_pages_cex :
    List.lookup 5 c5bp.page_table = some 0 ∧
    c5bp.free_list.length = 0 ∧
    (prefetchPages c5bp 9 1).1 = 1 ∧
    List.lookup 5 (prefetchPages c5bp 9 1).2.page_table = none ∧
    List.lookup 9 (prefetchPages c5bp 9 1).2.page_table = some 0 := by
  decide

theorem lookup_append_singleton_ne {β : Type} (l : List (Nat × β)) (f q : Nat) (x : β)
    (hq : q ≠ f) : List.lookup q (l ++ [(f, x)]) = List.lookup q l := by
  rcases hlq : List.lookup q l with _ | w <;>
    simp [List.lookup_append, hlq, List.lookup_cons, beq_eq_false_iff_ne.mpr hq]

theorem lookup_append_singleton_self {β : Type} (l : List (Nat × β)) (f : Nat) (x : β)
    (hl : List.lookup f l = none) : List.lookup f (l ++ [(f, x)]) = some x := by
  simp [List.lookup_append, hl, List.lookup_cons]

theorem record_access_max_frames (r : LruKReplacer) (f : FrameId) :
    (r.record_access f).max_frames = r.max_frames := by
  rw [LruKReplacer.record_access]
  split
  · rfl
  · split <;> rfl

theorem set_evictable_max_frames (r : LruKReplacer) (f : FrameId) (ev : Bool) :
    (r.set_evictable f ev).max_frames = r.max_frames := by
  rw [LruKReplacer.set_evictable]
  split
  · rfl
  · split
    · rfl
    · split <;> rfl

theorem record_access_lookup_ne (r : LruKReplacer) (f q : FrameId) (hq : q ≠ f) :
    List.lookup q (r.record_access f).frame_info = List.lookup q r.frame_info := by
  rw [LruKReplacer.record_access]
  by_cases hmax : r.max_frames ≤ f
  · rw [if_pos hmax]
  · rw [if_neg hmax]
    rcases hl : List.lookup f r.frame_info with _ | info
    · simp only [hl]
      exact lookup_append_singleton_ne _ _ _ _ hq
    · simp only [hl]
      exact lookup_mapIf_ne r.frame_info f q
        (fun p => (p.1, p.2.record_access r.current_timestamp r.k))
        (fun p hp => hp) hq

theorem set_evictable_lookup_ne (r : LruKReplacer) (f : FrameId) (ev : Bool)
    (q : FrameId) (hq : q ≠ f) :
    List.lookup q (r.set_evictable f ev).frame_info = List.lookup q r.frame_info := by
  rw [LruKReplacer.set_evictable]
  by_cases hmax : r.max_frames ≤ f
  · rw [if_pos hmax]
  · rw [if_neg hmax]
    rcases hl : List.lookup f r.frame_info with _ | info
    · simp only [hl]
      by_cases hev : ev
      · subst hev
        simp only [if_pos rfl]
        exact lookup_append_singleton_ne _ _ _ _ hq
      · simp only [if_neg hev]
    · simp only [hl]
      exact lookup_mapIf_ne r.frame_info f q
        (fun p => (p.1, { p.2 with is_evictable := ev }))
        (fun p hp => hp) hq

theorem record_access_lookup_isSome (r : LruKReplacer) (f : FrameId)
    (hf : f < r.max_frames) :
    ∃ info, List.lookup f (r.record_access f).frame_info = some info := by
  rw [LruKReplacer.record_access, if_neg (not_le.mpr hf)]
  rcases hl : List.lookup f r.frame_info with _ | info
  · simp only [hl]
    exact ⟨_, lookup_append_singleton_self _ _ _ hl⟩
  · simp only [hl]
    exact ⟨_, lookup_mapIf_self r.frame_info f info
      (fun p => (p.1, p.2.record_access r.current_timestamp r.k))
      (fun p hp => hp) hl⟩

theorem replacerEvictable_record_set_self (r : LruKReplacer) (f : FrameId)
    (hf : f < r.max_frames) :
    replacerEvictable ((r.record_access f).set_evictable f true) f = true := by
  obtain ⟨info, hinfo⟩ := record_access_lookup_isSome r f hf
  have hmax2 : ¬ (r.record_access f).max_frames ≤ f := by
    rw [record_access_max_frames]
    exact not_le.mpr hf
  rw [replacerEvictable, LruKReplacer.set_evictable, if_neg hmax2, hinfo]
  rw [lookup_mapIf_self _ f info
    (fun p => (p.1, { p.2 with is_evictable := true })) (fun p hp => hp) hinfo]

theorem replacerEvictable_record_set_other (r : LruKReplacer) (f q : FrameId)
    (hq : q ≠ f) :
    replacerEvictable ((r.record_access f).set_evictable f true) q =
      replacerEvictable r q := by
  rw [replacerEvictable, replacerEvictable,
    set_evictable_lookup_ne _ _ _ _ hq, record_access_lookup_ne _ _ _ hq]

theorem evict_some_mem (r : LruKReplacer) (fid : FrameId) (r' : LruKReplacer)
    (h : r.evict = (some fid, r')) :
    (∃ info, (fid, info) ∈ r.frame_info ∧ info.is_evictable = true) ∧
    r' = { r with frame_info := r.frame_info.eraseP (fun p => p.1 == fid) } := by
  rw [LruKReplacer.evict] at h
  by_cases h0 : r.num_evictable = 0
  · rw [if_pos h0] at h
    cases h
  · rw [if_neg h0] at h
    rcases hscan : evictScan r.current_timestamp r.k r.frame_info none with _ | ⟨f, kd, ed⟩
    · rw [hscan] at h
      cases h
    · rw [hscan] at h
      injection h with h1 h2
      injection h1 with h1
      subst h1
      have hinv := evictScan_inv r.current_timestamp r.k r.frame_info [] none
        (fun p hp => absurd hp (List.not_mem_nil p))
      rw [hscan] at hinv
      simp only [List.nil_append, ScanInv] at hinv
      obtain ⟨info, hmem, hev, _⟩ := hinv
      exact ⟨⟨info, hmem, hev⟩, h2.symm⟩

theorem key_unique {β : Type} {l : List (Nat × β)} (hnd : (l.map Prod.fst).Nodup)
    {k : Nat} {v w : β} (hv : (k, v) ∈ l) (hw : (k, w) ∈ l) : v = w := by
  induction l with
  | nil => cases hv
  | cons hd tl ih =>
    rw [List.map_cons, List.nodup_cons] at hnd
    rcases List.mem_cons.mp hv with rfl | hv2
    · rcases List.mem_cons.mp hw with h2 | hw2
      · exact congrArg Prod.snd h2.symm
      · exact absurd (List.mem_map_of_mem Prod.fst hw2) hnd.1
    · rcases List.mem_cons.mp hw with rfl | hw2
      · exact absurd (List.mem_map_of_mem Prod.fst hv2) hnd.1
      · exact ih hnd.2 hv2 hw2

theorem num_evictable_erase_lt (l : List (FrameId × FrameAccessInfo)) (fid : FrameId)
    (hnd : (l.map Prod.fst).Nodup)
    (hmem : ∃ info, (fid, info) ∈ l ∧ info.is_evictable = true) :
    ((l.eraseP (fun p => p.1 == fid)).filter (fun p => p.2.is_evictable)).length <
      (l.filter (fun p => p.2.is_evictable)).length := by
  induction l with
  | nil =>
    obtain ⟨info, hm, _⟩ := hmem
    cases hm
  | cons hd tl ih =>
    obtain ⟨a, b⟩ := hd
    rw [List.map_cons, List.nodup_cons] at hnd
    obtain ⟨info, hm, hev⟩ := hmem
    by_cases ha : a = fid
    · subst ha
      have hb : b.is_evictable = true := by
        rcases List.mem_cons.mp hm with h2 | h2
        · injection h2 with h3 h4
          rw [← h4]
          exact hev
        · exact absurd (List.mem_map_of_mem Prod.fst h2) hnd.1
      simp only [List.eraseP_cons, beq_self_eq_true, cond_true, List.filter_cons, hb,
        if_true, List.length_cons]
      omega
    · simp only [List.eraseP_cons, beq_eq_false_iff_ne.mpr ha, cond_false]
      have hm2 : (fid, info) ∈ tl := by
        rcases List.mem_cons.mp hm with h2 | h2
        · exact absurd (congrArg Prod.fst h2) (fun hx => ha hx.symm)
        · exact h2
      have := ih hnd.2 ⟨info, hm2, hev⟩
      rw [List.filter_cons, List.filter_cons]
      by_cases hb : b.is_evictable = true
      · simp only [hb, if_pos]
        simpa using Nat.succ_lt_succ this
      · simp only [Bool.not_eq_true] at hb
        simp only [hb]
        simpa using this

theorem evict_num_evictable_lt (r : LruKReplacer) (fid : FrameId) (r' : LruKReplacer)
    (hnd : (r.frame_info.map Prod.fst).Nodup)
    (h : r.evict = (some fid, r')) :
    r'.num_evictable < r.num_evictable := by
  obtain ⟨hmem, hr'⟩ := evict_some_mem r fid r' h
  rw [hr']
  exact num_evictable_erase_lt r.frame_info fid hnd hmem

theorem getFreeFrame_measure (bp : BufferPoolManager) (fid : Nat)
    (bp' : BufferPoolManager)
    (hnd : (bp.replacer.frame_info.map Prod.fst).Nodup)
    (h : getFreeFrame bp = .ok (fid, bp')) :
    bp'.free_list.length + bp'.replacer.num_evictable <
      bp.free_list.length + bp.replacer.num_evictable ∧
    (bp'.replacer.frame_info.map Prod.fst).Nodup := by
  rw [getFreeFrame] at h
  rcases hfl : bp.free_list with _ | ⟨f, rest⟩ <;> rw [hfl] at h
  · rcases hev : bp.replacer.evict with ⟨o, r'⟩
    rcases o with _ | f2 <;> rw [hev] at h
    · cases h
    · injection h with h1
      injection h1 with h1 h2
      rw [h1] at hev
      rw [← h2]
      have hlt := evict_num_evictable_lt bp.replacer fid r' hnd hev
      have hnd' : (r'.frame_info.map Prod.fst).Nodup := by
        obtain ⟨_, hr'⟩ := evict_some_mem bp.replacer fid r' hev
        rw [hr']
        exact hnd.sublist (List.Sublist.map Prod.fst (List.eraseP_sublist _))
      refine ⟨?_, hnd'⟩
      simp only [hfl, List.length_nil]
      omega
  · injection h with h1
    injection h1 with h1 h2
    rw [← h2]
    refine ⟨?_, hnd⟩
    simp only [hfl, List.length_cons]
    omega

theorem collectFreeFrames_length (n : Nat) : ∀ bp : BufferPoolManager,
    (bp.replacer.frame_info.map Prod.fst).Nodup →
    (collectFreeFrames n bp).1.length ≤
      bp.free_list.length + bp.replacer.num_evictable := by
  induction n with
  | zero =>
    intro bp _
    simp [collectFreeFrames]
  | succ n ih =>
    intro bp hnd
    rw [collectFreeFrames]
    rcases hg : getFreeFrame bp with e | ⟨fid, bp'⟩
    · simp
    · simp only [List.length_cons]
      have hm := getFreeFrame_measure bp fid bp' hnd hg
      have := ih bp' hm.2
      omega

theorem frameAt_set_init (fr : List FrameHeader) (i : Nat) :
    frameAt (fr.set i FrameHeader.init) i = FrameHeader.init := by
  by_cases h : i < fr.length
  · exact frameAt_set_self fr i _ h
  · rw [frameAt_oob]
    rw [List.length_set]
    omega

theorem getFreeFrame_pin0_mono (bp : BufferPoolManager) (fid : Nat)
    (bp' : BufferPoolManager) (f : Nat) (h : getFreeFrame bp = .ok (fid, bp'))
    (hf : (frameAt bp.frames f).pin_count = 0) :
    (frameAt bp'.frames f).pin_count = 0 := by
  rw [getFreeFrame] at h
  rcases hfl : bp.free_list with _ | ⟨g, rest⟩ <;> rw [hfl] at h
  · rcases hev : bp.replacer.evict with ⟨o, r'⟩
    rcases o with _ | f2 <;> rw [hev] at h
    · cases h
    · injection h with h1
      injection h1 with h1 h2
      rw [← h2]
      by_cases hff : f = f2
      · subst hff
        show (frameAt (bp.frames.set f FrameHeader.init) f).pin_count = 0
        rw [frameAt_set_init]
        rfl
      · show (frameAt (bp.frames.set f2 FrameHeader.init) f).pin_count = 0
        rw [frameAt_set_ne _ _ _ _ hff]
        exact hf
  · injection h with h1
    injection h1 with h1 h2
    rw [← h2]
    exact hf

theorem getFreeFrame_free_pin0 (bp : BufferPoolManager) (fid : Nat)
    (bp' : BufferPoolManager) (h : getFreeFrame bp = .ok (fid, bp'))
    (hfree : ∀ f ∈ bp.free_list, (frameAt bp.frames f).pin_count = 0) :
    (frameAt bp'.frames fid).pin_count = 0 ∧
    (∀ f ∈ bp'.free_list, (frameAt bp'.frames f).pin_count = 0) := by
  rw [getFreeFrame] at h
  rcases hfl : bp.free_list with _ | ⟨g, rest⟩ <;> rw [hfl] at h
  · rcases hev : bp.replacer.evict with ⟨o, r'⟩
    rcases o with _ | f2 <;> rw [hev] at h
    · cases h
    · injection h with h1
      injection h1 with h1 h2
      rw [h1] at h2
      rw [← h2]
      constructor
      · show (frameAt (bp.frames.set fid FrameHeader.init) fid).pin_count = 0
        rw [frameAt_set_init]
        rfl
      · intro f hfmem
        cases hfmem
  · injection h with h1
    injection h1 with h1 h2
    rw [← h2, ← h1]
    constructor
    · exact hfree g (by rw [hfl]; exact List.mem_cons_self _ _)
    · intro f hfmem
      exact hfree f (by rw [hfl]; exact List.mem_cons_of_mem _ hfmem)

theorem collectFreeFrames_pin0_mono (n : Nat) : ∀ (bp : BufferPoolManager) (f : Nat),
    (frameAt bp.frames f).pin_count = 0 →
    (frameAt (collectFreeFrames n bp).2.frames f).pin_count = 0 := by
  induction n with
  | zero =>
    intro bp f hf
    exact hf
  | succ n ih =>
    intro bp f hf
    rw [collectFreeFrames]
    rcases hg : getFreeFrame bp with e | ⟨fid, bp'⟩
    · exact hf
    · exact ih bp' f (getFreeFrame_pin0_mono bp fid bp' f hg hf)

theorem collectFreeFrames_pins (n : Nat) : ∀ bp : BufferPoolManager,
    (∀ f ∈ bp.free_list, (frameAt bp.frames f).pin_count = 0) →
    ∀ f ∈ (collectFreeFrames n bp).1,
      (frameAt (collectFreeFrames n bp).2.frames f).pin_count = 0 := by
  induction n with
  | zero =>
    intro bp _ f hf
    cases hf
  | succ n ih =>
    intro bp hfree f hf
    rw [collectFreeFrames] at hf ⊢
    rcases hg : getFreeFrame bp with e | ⟨fid, bp'⟩
    all_goals rw [hg] at hf
    · exact absurd hf (List.not_mem_nil f)
    · obtain ⟨hfid0, hfree'⟩ := getFreeFrame_free_pin0 bp fid bp' hg hfree
      have hf2 : f ∈ fid :: (collectFreeFrames n bp').1 := hf
      show (frameAt (collectFreeFrames n bp').2.frames f).pin_count = 0
      rcases List.mem_cons.mp hf2 with rfl | hf3
      · exact collectFreeFrames_pin0_mono n bp' f hfid0
      · exact ih bp' hfree' f hf3

theorem evict_snd_characterization (r : LruKReplacer) :
    (r.evict).2 = r ∨ ∃ fid, (r.evict).2 =
      { r with frame_info := r.frame_info.eraseP (fun p => p.1 == fid) } := by
  rw [LruKReplacer.evict]
  by_cases h0 : r.num_evictable = 0
  · rw [if_pos h0]
    exact Or.inl rfl
  · rw [if_neg h0]
    rcases hscan : evictScan r.current_timestamp r.k r.frame_info none with _ | ⟨f, kd, ed⟩
    · exact Or.inl rfl
    · exact Or.inr ⟨f, rfl⟩

theorem getFreeFrame_bounds (bp : BufferPoolManager) (fid : Nat)
    (bp' : BufferPoolManager) (h : getFreeFrame bp = .ok (fid, bp'))
    (hmaxfree : ∀ f ∈ bp.free_list, f < bp.replacer.max_frames)
    (hmaxfi : ∀ e ∈ bp.replacer.frame_info, e.1 < bp.replacer.max_frames) :
    fid < bp.replacer.max_frames ∧
    bp'.replacer.max_frames = bp.replacer.max_frames ∧
    (∀ f ∈ bp'.free_list, f < bp'.replacer.max_frames) ∧
    (∀ e ∈ bp'.replacer.frame_info, e.1 < bp'.replacer.max_frames) := by
  rw [getFreeFrame] at h
  rcases hfl : bp.free_list with _ | ⟨g, rest⟩ <;> rw [hfl] at h
  · rcases hev : bp.replacer.evict with ⟨o, r'⟩
    rcases o with _ | f2 <;> rw [hev] at h
    · cases h
    · injection h with h1
      injection h1 with h1 h2
      rw [h1] at h2 hev
      rw [← h2]
      obtain ⟨⟨info, hmem, _⟩, hr'⟩ := evict_some_mem bp.replacer fid r' hev
      refine ⟨hmaxfi (fid, info) hmem, ?_, ?_, ?_⟩
      · rw [hr']
      · intro f hfmem
        cases hfmem
      · intro e hemem
        rw [hr'] at hemem ⊢
        exact hmaxfi e ((List.eraseP_sublist _).subset hemem)
  · injection h with h1
    injection h1 with h1 h2
    rw [← h2, ← h1]
    refine ⟨hmaxfree g (by rw [hfl]; exact List.mem_cons_self _ _), rfl, ?_, hmaxfi⟩
    intro f hfmem
    exact hmaxfree f (by rw [hfl]; exact List.mem_cons_of_mem _ hfmem)

theorem collectFreeFrames_bounds (n : Nat) : ∀ bp : BufferPoolManager,
    (∀ f ∈ bp.free_list, f < bp.replacer.max_frames) →
    (∀ e ∈ bp.replacer.frame_info, e.1 < bp.replacer.max_frames) →
    (∀ f ∈ (collectFreeFrames n bp).1, f < bp.replacer.max_frames) ∧
    (collectFreeFrames n bp).2.replacer.max_frames = bp.replacer.max_frames := by
  induction n with
  | zero =>
    intro bp _ _
    exact ⟨fun f hf => absurd hf (List.not_mem_nil f), rfl⟩
  | succ n ih =>
    intro bp hmaxfree hmaxfi
    rw [collectFreeFrames]
    rcases hg : getFreeFrame bp with e | ⟨fid, bp'⟩
    · exact ⟨fun f hf => absurd hf (List.not_mem_nil f), rfl⟩
    · obtain ⟨hfid, hmax_eq, hfree', hfi'⟩ := getFreeFrame_bounds bp fid bp' hg hmaxfree hmaxfi
      have := ih bp' hfree' hfi'
      refine ⟨?_, by rw [this.2, hmax_eq]⟩
      intro f hf
      rcases List.mem_cons.mp hf with rfl | hf2
      · exact hfid
      · rw [← hmax_eq]
        exact this.1 f hf2

theorem lookup_eraseP_none {β : Type} (l : List (Nat × β)) (p : Nat × β → Bool)
    (q : Nat) (h : List.lookup q l = none) : List.lookup q (l.eraseP p) = none := by
  rw [lookup_eq_none_iff] at h ⊢
  intro hq
  exact h ((List.Sublist.map Prod.fst (List.eraseP_sublist l)).subset hq)

theorem getFreeFrame_lookup_none (bp : BufferPoolManager) (fid : Nat)
    (bp' : BufferPoolManager) (h : getFreeFrame bp = .ok (fid, bp')) (q : Nat)
    (hq : List.lookup q bp.page_table = none) :
    List.lookup q bp'.page_table = none := by
  rw [getFreeFrame] at h
  rcases hfl : bp.free_list with _ | ⟨g, rest⟩ <;> rw [hfl] at h
  · rcases hev : bp.replacer.evict with ⟨o, r'⟩
    rcases o with _ | f2 <;> rw [hev] at h
    · cases h
    · injection h with h1
      injection h1 with h1 h2
      rw [← h2]
      exact lookup_eraseP_none _ _ _ hq
  · injection h with h1
    injection h1 with h1 h2
    rw [← h2]
    exact hq

theorem collectFreeFrames_lookup_none (n : Nat) : ∀ (bp : BufferPoolManager) (q : Nat),
    List.lookup q bp.page_table = none →
    List.lookup q (collectFreeFrames n bp).2.page_table = none := by
  induction n with
  | zero =>
    intro bp q hq
    exact hq
  | succ n ih =>
    intro bp q hq
    rw [collectFreeFrames]
    rcases hg : getFreeFrame bp with e | ⟨fid, bp'⟩
    · exact hq
    · exact ih bp' q (getFreeFrame_lookup_none bp fid bp' hg q hq)

theorem frameAt_set_cases (fr : List FrameHeader) (i : Nat) (x : FrameHeader) :
    frameAt (fr.set i x) i = x ∨ frameAt (fr.set i x) i = FrameHeader.init := by
  by_cases h : i < fr.length
  · exact Or.inl (frameAt_set_self fr i x h)
  · refine Or.inr ?_
    rw [frameAt_oob]
    rw [List.length_set]
    omega

theorem prefetchOne_max (b : BufferPoolManager) (p f : Nat) :
    (prefetchOne b p f).replacer.max_frames = b.replacer.max_frames := by
  show ((b.replacer.record_access f).set_evictable f true).max_frames = _
  rw [set_evictable_max_frames, record_access_max_frames]

theorem prefetchOne_frames (b : BufferPoolManager) (p f : Nat) :
    (prefetchOne b p f).frames = b.frames.set f { frameAt b.frames f with page_id := p, data := b.disk.pages p, is_dirty := false } := rfl

theorem prefetchOne_page_table (b : BufferPoolManager) (p f : Nat) :
    (prefetchOne b p f).page_table = upsertList b.page_table p f := rfl

theorem prefetchOne_replacer (b : BufferPoolManager) (p f : Nat) :
    (prefetchOne b p f).replacer = (b.replacer.record_access f).set_evictable f true := rfl

theorem prefetchFold_inv (l : List (Nat × Nat)) (P : Nat → Prop) :
    ∀ b : BufferPoolManager,
      (∀ pf ∈ l, pf.2 < b.replacer.max_frames) →
      (∀ pf ∈ l, (frameAt b.frames pf.2).pin_count = 0) →
      (∀ q fid, P q → List.lookup q b.page_table = some fid →
        (frameAt b.frames fid).is_dirty = false ∧
        (frameAt b.frames fid).pin_count = 0 ∧
        replacerEvictable b.replacer fid = true) →
      ∀ q fid, P q →
        List.lookup q (l.foldl (fun b pf => prefetchOne b pf.1 pf.2) b).page_table =
          some fid →
        (frameAt (l.foldl (fun b pf => prefetchOne b pf.1 pf.2) b).frames
          fid).is_dirty = false ∧
        (frameAt (l.foldl (fun b pf => prefetchOne b pf.1 pf.2) b).frames
          fid).pin_count = 0 ∧
        replacerEvictable (l.foldl (fun b pf => prefetchOne b pf.1 pf.2) b).replacer
          fid = true := by
  induction l with
  | nil =>
    intro b _ _ hinv q fid hP hl
    exact hinv q fid hP hl
  | cons pf rest ih =>
    intro b hmax hpins hinv q fid hP hl
    rw [List.foldl_cons] at hl ⊢
    refine ih (prefetchOne b pf.1 pf.2) ?_ ?_ ?_ q fid hP hl
    · intro pf2 h2
      rw [prefetchOne_max]
      exact hmax pf2 (List.mem_cons_of_mem _ h2)
    · intro pf2 h2
      have h0 := hpins pf2 (List.mem_cons_of_mem _ h2)
      rw [prefetchOne_frames]
      by_cases hsame : pf2.2 = pf.2
      · rw [hsame]
        rw [hsame] at h0
        rcases frameAt_set_cases b.frames pf.2 { frameAt b.frames pf.2 with page_id := pf.1, data := b.disk.pages pf.1, is_dirty := false } with hc | hc
        · rw [hc]
          exact h0
        · rw [hc]
          rfl
      · rw [frameAt_set_ne _ _ _ _ hsame]
        exact h0
    · intro q2 fid2 hP2 hl2
      rw [prefetchOne_page_table] at hl2
      by_cases hq2 : q2 = pf.1
      · subst hq2
        rw [lookup_upsert] at hl2
        injection hl2 with hl2
        refine ⟨?_, ?_, ?_⟩
        · rw [prefetchOne_frames, ← hl2]
          rcases frameAt_set_cases b.frames pf.2 { frameAt b.frames pf.2 with page_id := pf.1, data := b.disk.pages pf.1, is_dirty := false } with hc | hc <;> rw [hc] <;> rfl
        · rw [prefetchOne_frames, ← hl2]
          rcases frameAt_set_cases b.frames pf.2 { frameAt b.frames pf.2 with page_id := pf.1, data := b.disk.pages pf.1, is_dirty := false } with hc | hc
          · rw [hc]
            exact hpins pf (List.mem_cons_self _ _)
          · rw [hc]
            rfl
        · rw [prefetchOne_replacer, ← hl2]
          exact replacerEvictable_record_set_self b.replacer pf.2
            (hmax pf (List.mem_cons_self _ _))
      · rw [lookup_upsert_ne _ _ _ _ hq2] at hl2
        obtain ⟨hd, hp0, hev⟩ := hinv q2 fid2 hP2 hl2
        refine ⟨?_, ?_, ?_⟩
        · rw [prefetchOne_frames]
          by_cases hsame : fid2 = pf.2
          · rw [hsame]
            rcases frameAt_set_cases b.frames pf.2 { frameAt b.frames pf.2 with page_id := pf.1, data := b.disk.pages pf.1, is_dirty := false } with hc | hc <;> rw [hc] <;> rfl
          · rw [frameAt_set_ne _ _ _ _ hsame]
            exact hd
        · rw [prefetchOne_frames]
          by_cases hsame : fid2 = pf.2
          · rw [hsame]
            rw [hsame] at hp0
            rcases frameAt_set_cases b.frames pf.2 { frameAt b.frames pf.2 with page_id := pf.1, data := b.disk.pages pf.1, is_dirty := false } with hc | hc
            · rw [hc]
              exact hp0
            · rw [hc]
              rfl
          · rw [frameAt_set_ne _ _ _ _ hsame]
            exact hp0
        · rw [prefetchOne_replacer]
          by_cases hsame : fid2 = pf.2
          · rw [hsame]
            exact replacerEvictable_record_set_self b.replacer pf.2
              (hmax pf (List.mem_cons_self _ _))
          · rw [replacerEvictable_record_set_other _ _ _ hsame]
            exact hev

/-- **C5 (amended).** `prefetch_pages` skips pages already in the page
table (if every requested page is resident it loads nothing and leaves
the pool unchanged); the number of pages loaded is bounded by the free
list plus the replacer's evictable frames (eviction of evictable
resident pages can make up for missing free frames); and every page the
prefetch makes resident sits in a non-dirty frame with pin count 0 that
is marked evictable in the replacer.  The hypotheses are the pool
invariants: free-list frames are unpinned, free-list members and
replacer keys are below `max_frames`, and the replacer map has unique
keys. -/
theorem prefetch_pages_amended (bp : BufferPoolManager)
    (start_page_id num_pages : Nat)
    (hfree : ∀ f ∈ bp.free_list, (frameAt bp.frames f).pin_count = 0)
    (hmaxfree : ∀ f ∈ bp.free_list, f < bp.replacer.max_frames)
    (hmaxfi : ∀ e ∈ bp.replacer.frame_info, e.1 < bp.replacer.max_frames)
    (hnd : (bp.replacer.frame_info.map Prod.fst).Nodup) :
    ((∀ i < num_pages,
        (List.lookup (start_page_id + i) bp.page_table).isSome = true) →
      prefetchPages bp start_page_id num_pages = (0, bp)) ∧
    (prefetchPages bp start_page_id num_pages).1 ≤
      bp.free_list.length + bp.replacer.num_evictable ∧
    (∀ q fid, List.lookup q bp.page_table = none →
      List.lookup q (prefetchPages bp start_page_id num_pages).2.page_table =
        some fid →
      (frameAt (prefetchPages bp start_page_id num_pages).2.frames
        fid).is_dirty = false ∧
      (frameAt (prefetchPages bp start_page_id num_pages).2.frames
        fid).pin_count = 0 ∧
      replacerEvictable (prefetchPages bp start_page_id num_pages).2.replacer
        fid = true) := by
  have hfilter_nil : (∀ i < num_pages,
      (List.lookup (start_page_id + i) bp.page_table).isSome = true) →
      (((List.range num_pages).map (fun i => start_page_id + i)).filter (fun pid => (List.lookup pid bp.page_table).isNone)) = [] := by
    intro hall
    apply List.filter_eq_nil.mpr
    intro pid hpid
    obtain ⟨i, hi, rfl⟩ := List.mem_map.mp hpid
    have hsome := hall i (List.mem_range.mp hi)
    rcases hlk : List.lookup (start_page_id + i) bp.page_table with _ | w
    · rw [hlk] at hsome
      cases hsome
    · simp [hlk]
  by_cases hn : num_pages = 0
  · have hres : prefetchPages bp start_page_id num_pages = (0, bp) := by
      simp [prefetchPages, hn]
    refine ⟨fun _ => hres, by rw [hres]; exact Nat.zero_le _, ?_⟩
    intro q fid hq hl
    rw [hres] at hl
    have hl2 : List.lookup q bp.page_table = some fid := hl
    rw [hq] at hl2
    cases hl2
  · by_cases hptf : (((List.range num_pages).map (fun i => start_page_id + i)).filter (fun pid => (List.lookup pid bp.page_table).isNone)).isEmpty = true
    · have hres : prefetchPages bp start_page_id num_pages = (0, bp) := by
        simp only [prefetchPages]
        rw [if_neg hn, if_pos hptf]
      refine ⟨fun _ => hres, by rw [hres]; exact Nat.zero_le _, ?_⟩
      intro q fid hq hl
      rw [hres] at hl
      have hl2 : List.lookup q bp.page_table = some fid := hl
      rw [hq] at hl2
      cases hl2
    · have hconj1 : (∀ i < num_pages,
          (List.lookup (start_page_id + i) bp.page_table).isSome = true) →
          prefetchPages bp start_page_id num_pages = (0, bp) := by
        intro hall
        exact absurd (by rw [hfilter_nil hall]; rfl) hptf
      by_cases hcf : (collectFreeFrames (((List.range num_pages).map (fun i => start_page_id + i)).filter (fun pid => (List.lookup pid bp.page_table).isNone)).length bp).1.isEmpty = true
      · have hres : prefetchPages bp start_page_id num_pages = (0, (collectFreeFrames (((List.range num_pages).map (fun i => start_page_id + i)).filter (fun pid => (List.lookup pid bp.page_table).isNone)).length bp).2) := by
          simp only [prefetchPages]
          rw [if_neg hn, if_neg hptf, if_pos hcf]
        refine ⟨hconj1, by rw [hres]; exact Nat.zero_le _, ?_⟩
        intro q fid hq hl
        rw [hres] at hl
        have hl2 : List.lookup q (collectFreeFrames (((List.range num_pages).map (fun i => start_page_id + i)).filter (fun pid => (List.lookup pid bp.page_table).isNone)).length bp).2.page_table = some fid := hl
        have hnone := collectFreeFrames_lookup_none (((List.range num_pages).map (fun i => start_page_id + i)).filter (fun pid => (List.lookup pid bp.page_table).isNone)).length bp q hq
        rw [hnone] at hl2
        cases hl2
      · have hres : prefetchPages bp start_page_id num_pages =
            (((((List.range num_pages).map (fun i => start_page_id + i)).filter (fun pid => (List.lookup pid bp.page_table).isNone)).take (collectFreeFrames (((List.range num_pages).map (fun i => start_page_id + i)).filter (fun pid => (List.lookup pid bp.page_table).isNone)).length bp).1.length).length, ((((((List.range num_pages).map (fun i => start_page_id + i)).filter (fun pid => (List.lookup pid bp.page_table).isNone)).take (collectFreeFrames (((List.range num_pages).map (fun i => start_page_id + i)).filter (fun pid => (List.lookup pid bp.page_table).isNone)).length bp).1.length).zip (collectFreeFrames (((List.range num_pages).map (fun i => start_page_id + i)).filter (fun pid => (List.lookup pid bp.page_table).isNone)).length bp).1).foldl (fun b pf => prefetchOne b pf.1 pf.2) { (collectFreeFrames (((List.range num_pages).map (fun i => start_page_id + i)).filter (fun pid => (List.lookup pid bp.page_table).isNone)).length bp).2 with disk := (collectFreeFrames (((List.range num_pages).map (fun i => start_page_id + i)).filter (fun pid => (List.lookup pid bp.page_table).isNone)).length bp).2.disk.read_pages })) := by
          simp only [prefetchPages]
          rw [if_neg hn, if_neg hptf, if_neg hcf]
        have hbounds := collectFreeFrames_bounds (((List.range num_pages).map (fun i => start_page_id + i)).filter (fun pid => (List.lookup pid bp.page_table).isNone)).length bp hmaxfree hmaxfi
        have hpins2 := collectFreeFrames_pins (((List.range num_pages).map (fun i => start_page_id + i)).filter (fun pid => (List.lookup pid bp.page_table).isNone)).length bp hfree
        refine ⟨hconj1, ?_, ?_⟩
        · rw [hres]
          have h1 : ((((List.range num_pages).map (fun i => start_page_id + i)).filter (fun pid => (List.lookup pid bp.page_table).isNone)).take (collectFreeFrames (((List.range num_pages).map (fun i => start_page_id + i)).filter (fun pid => (List.lookup pid bp.page_table).isNone)).length bp).1.length).length ≤ (collectFreeFrames (((List.range num_pages).map (fun i => start_page_id + i)).filter (fun pid => (List.lookup pid bp.page_table).isNone)).length bp).1.length := by
            rw [List.length_take]
            exact min_le_left _ _
          exact le_trans h1 (collectFreeFrames_length (((List.range num_pages).map (fun i => start_page_id + i)).filter (fun pid => (List.lookup pid bp.page_table).isNone)).length bp hnd)
        · intro q fid hq hl
          rw [hres] at hl ⊢
          have hl2 : List.lookup q ((((((List.range num_pages).map (fun i => start_page_id + i)).filter (fun pid => (List.lookup pid bp.page_table).isNone)).take (collectFreeFrames (((List.range num_pages).map (fun i => start_page_id + i)).filter (fun pid => (List.lookup pid bp.page_table).isNone)).length bp).1.length).zip (collectFreeFrames (((List.range num_pages).map (fun i => start_page_id + i)).filter (fun pid => (List.lookup pid bp.page_table).isNone)).length bp).1).foldl (fun b pf => prefetchOne b pf.1 pf.2) { (collectFreeFrames (((List.range num_pages).map (fun i => start_page_id + i)).filter (fun pid => (List.lookup pid bp.page_table).isNone)).length bp).2 with disk := (collectFreeFrames (((List.range num_pages).map (fun i => start_page_id + i)).filter (fun pid => (List.lookup pid bp.page_table).isNone)).length bp).2.disk.read_pages }).page_table = some fid := hl
          have hmaxs : ∀ pf ∈ ((((List.range num_pages).map (fun i => start_page_id + i)).filter (fun pid => (List.lookup pid bp.page_table).isNone)).take (collectFreeFrames (((List.range num_pages).map (fun i => start_page_id + i)).filter (fun pid => (List.lookup pid bp.page_table).isNone)).length bp).1.length).zip (collectFreeFrames (((List.range num_pages).map (fun i => start_page_id + i)).filter (fun pid => (List.lookup pid bp.page_table).isNone)).length bp).1,
              pf.2 < ({ (collectFreeFrames (((List.range num_pages).map (fun i => start_page_id + i)).filter (fun pid => (List.lookup pid bp.page_table).isNone)).length bp).2 with disk := (collectFreeFrames (((List.range num_pages).map (fun i => start_page_id + i)).filter (fun pid => (List.lookup pid bp.page_table).isNone)).length bp).2.disk.read_pages } : BufferPoolManager).replacer.max_frames := by
            intro pf hpf
            obtain ⟨p1, p2⟩ := pf
            have hmem := (List.mem_zip hpf).2
            show p2 < (collectFreeFrames (((List.range num_pages).map (fun i => start_page_id + i)).filter (fun pid => (List.lookup pid bp.page_table).isNone)).length bp).2.replacer.max_frames
            rw [hbounds.2]
            exact hbounds.1 p2 hmem
          have hpinsz : ∀ pf ∈ ((((List.range num_pages).map (fun i => start_page_id + i)).filter (fun pid => (List.lookup pid bp.page_table).isNone)).take (collectFreeFrames (((List.range num_pages).map (fun i => start_page_id + i)).filter (fun pid => (List.lookup pid bp.page_table).isNone)).length bp).1.length).zip (collectFreeFrames (((List.range num_pages).map (fun i => start_page_id + i)).filter (fun pid => (List.lookup pid bp.page_table).isNone)).length bp).1,
              (frameAt ({ (collectFreeFrames (((List.range num_pages).map (fun i => start_page_id + i)).filter (fun pid => (List.lookup pid bp.page_table).isNone)).length bp).2 with disk := (collectFreeFrames (((List.range num_pages).map (fun i => start_page_id + i)).filter (fun pid => (List.lookup pid bp.page_table).isNone)).length bp).2.disk.read_pages } : BufferPoolManager).frames pf.2).pin_count = 0 := by
            intro pf hpf
            obtain ⟨p1, p2⟩ := pf
            exact hpins2 p2 (List.mem_zip hpf).2
          have hinvz : ∀ q2 fid2, List.lookup q2 bp.page_table = none →
              List.lookup q2 ({ (collectFreeFrames (((List.range num_pages).map (fun i => start_page_id + i)).filter (fun pid => (List.lookup pid bp.page_table).isNone)).length bp).2 with disk := (collectFreeFrames (((List.range num_pages).map (fun i => start_page_id + i)).filter (fun pid => (List.lookup pid bp.page_table).isNone)).length bp).2.disk.read_pages } : BufferPoolManager).page_table = some fid2 →
              (frameAt ({ (collectFreeFrames (((List.range num_pages).map (fun i => start_page_id + i)).filter (fun pid => (List.lookup pid bp.page_table).isNone)).length bp).2 with disk := (collectFreeFrames (((List.range num_pages).map (fun i => start_page_id + i)).filter (fun pid => (List.lookup pid bp.page_table).isNone)).length bp).2.disk.read_pages } : BufferPoolManager).frames fid2).is_dirty = false ∧
              (frameAt ({ (collectFreeFrames (((List.range num_pages).map (fun i => start_page_id + i)).filter (fun pid => (List.lookup pid bp.page_table).isNone)).length bp).2 with disk := (collectFreeFrames (((List.range num_pages).map (fun i => start_page_id + i)).filter (fun pid => (List.lookup pid bp.page_table).isNone)).length bp).2.disk.read_pages } : BufferPoolManager).frames fid2).pin_count = 0 ∧
              replacerEvictable ({ (collectFreeFrames (((List.range num_pages).map (fun i => start_page_id + i)).filter (fun pid => (List.lookup pid bp.page_table).isNone)).length bp).2 with disk := (collectFreeFrames (((List.range num_pages).map (fun i => start_page_id + i)).filter (fun pid => (List.lookup pid bp.page_table).isNone)).length bp).2.disk.read_pages } : BufferPoolManager).replacer fid2 = true := by
            intro q2 fid2 hq2 hl3
            have hl4 : List.lookup q2 (collectFreeFrames (((List.range num_pages).map (fun i => start_page_id + i)).filter (fun pid => (List.lookup pid bp.page_table).isNone)).length bp).2.page_table = some fid2 := hl3
            have hnone := collectFreeFrames_lookup_none (((List.range num_pages).map (fun i => start_page_id + i)).filter (fun pid => (List.lookup pid bp.page_table).isNone)).length bp q2 hq2
            rw [hnone] at hl4
            cases hl4
          exact prefetchFold_inv (((((List.range num_pages).map (fun i => start_page_id + i)).filter (fun pid => (List.lookup pid bp.page_table).isNone)).take (collectFreeFrames (((List.range num_pages).map (fun i => start_page_id + i)).filter (fun pid => (List.lookup pid bp.page_table).isNone)).length bp).1.length).zip (collectFreeFrames (((List.range num_pages).map (fun i => start_page_id + i)).filter (fun pid => (List.lookup pid bp.page_table).isNone)).length bp).1)
            (fun q => List.lookup q bp.page_table = none) { (collectFreeFrames (((List.range num_pages).map (fun i => start_page_id + i)).filter (fun pid => (List.lookup pid bp.page_table).isNone)).length bp).2 with disk := (collectFreeFrames (((List.range num_pages).map (fun i => start_page_id + i)).filter (fun pid => (List.lookup pid bp.page_table).isNone)).length bp).2.disk.read_pages } hmaxs hpinsz hinvz
            q fid hq hl2

theorem prefetch_pages_amended_witness :
    (∀ f ∈ c5bp.free_list, (frameAt c5bp.frames f).pin_count = 0) ∧
    (((∀ i < 1,
        (List.lookup (9 + i) c5bp.page_table).isSome = true) →
      prefetchPages c5bp 9 1 = (0, c5bp)) ∧
    (prefetchPages c5bp 9 1).1 ≤
      c5bp.free_list.length + c5bp.replacer.num_evictable ∧
    (∀ q fid, List.lookup q c5bp.page_table = none →
      List.lookup q (prefetchPages c5bp 9 1).2.page_table =
        some fid →
      (frameAt (prefetchPages c5bp 9 1).2.frames
        fid).is_dirty = false ∧
      (frameAt (prefetchPages c5bp 9 1).2.frames
        fid).pin_count = 0 ∧
      replacerEvictable (prefetchPages c5bp 9 1).2.replacer
        fid = true)) :=
  ⟨fun f hf => absurd hf (List.not_mem_nil f),
    prefetch_pages_amended c5bp 9 1
      (fun f hf => absurd hf (List.not_mem_nil f))
      (fun f hf => absurd hf (List.not_mem_nil f))
      (by decide) (by decide)⟩

end Crio
